import Mathlib

/-!
Verification development for the contact-enrichment background pipeline
(`services/jobProcessor.ts`, `services/scraperService.ts`,
`services/enrichmentService.ts`, `services/htmlCleaner.ts`).

The JavaScript/TypeScript source is shallowly embedded: pure string
processing is modelled on `List Char`, JS numbers by `ℚ`/`ℤ`/`ℕ`,
runtime effects (DNS lookups, HTTP fetches, the LLM endpoint, `Date.now`)
by explicit environment records, and thrown exceptions by
`Option`/`Except` results.  Field names and function names follow the
source wherever Lean allows it.
-/

/- ## Generic JS string primitives (on `List Char`) -/

/-- The JS `\s` whitespace class (the code points relevant to this code
base; exotic Unicode spaces behave identically to these here). -/
def jsSpace (c : Char) : Bool :=
  c = ' ' || c = '\t' || c = '\n' || c = '\r' || c = '\x0b' || c = '\x0c' ||
  c = ' ' || c = '﻿'

/-- JS word character class `[A-Za-z0-9_]` (used for `\b` boundaries). -/
def isWordChar (c : Char) : Bool :=
  (('a' ≤ c && c ≤ 'z') || ('A' ≤ c && c ≤ 'Z') || ('0' ≤ c && c ≤ '9') || c = '_')

/-- Case-insensitive character comparison, as with the regex `i` flag
(ASCII case folding, which is all these patterns need). -/
def charCI (a b : Char) : Bool := a.toLower = b.toLower

/-- Strip `pat` from the front of the input, case-insensitively.
Returns the remainder on success. -/
def ciStrip : List Char → List Char → Option (List Char)
  | [], cs => some cs
  | _ :: _, [] => none
  | p :: ps, c :: cs => if charCI p c then ciStrip ps cs else none

/-- Strip `pat` from the front of the input, case-sensitively. -/
def csStrip : List Char → List Char → Option (List Char)
  | [], cs => some cs
  | _ :: _, [] => none
  | p :: ps, c :: cs => if p = c then csStrip ps cs else none

/-- Consume characters up to and including the first occurrence of `stop`
(the regex shape `[^stop]*stop`); `none` when `stop` never occurs. -/
def skipToChar (stop : Char) : List Char → Option (List Char)
  | [] => none
  | c :: cs => if c = stop then some cs else skipToChar stop cs

/-- JS `String.prototype.includes` on char lists (case-sensitive). -/
def occursB (n : List Char) : List Char → Bool
  | [] => n.isEmpty
  | c :: t => n.isPrefixOf (c :: t) || occursB n t

/-- Case-insensitive occurrence test (a case-insensitive `includes`). -/
def ciOccursB (n : List Char) : List Char → Bool
  | [] => n.isEmpty
  | c :: t => (ciStrip n (c :: t)).isSome || ciOccursB n t

/-- JS `String.prototype.toLowerCase` (ASCII-relevant part). -/
def jsToLower (cs : List Char) : List Char := cs.map Char.toLower

/-- JS `String.prototype.trim`: drop leading and trailing `\s`. -/
def jsTrim (cs : List Char) : List Char :=
  ((cs.dropWhile jsSpace).reverse.dropWhile jsSpace).reverse

/-- JS `replace(/\s+/g, " ")`: collapse every whitespace run to one space. -/
def collapseWs : List Char → List Char
  | [] => []
  | [c] => if jsSpace c then [' '] else [c]
  | c :: d :: cs =>
    if jsSpace c then
      if jsSpace d then collapseWs (d :: cs) else ' ' :: collapseWs (d :: cs)
    else c :: collapseWs (d :: cs)

/-- JS `String.prototype.split` with a single-character separator. -/
def jsSplitChar (sep : Char) : List Char → List (List Char)
  | [] => [[]]
  | c :: cs =>
    if c = sep then [] :: jsSplitChar sep cs
    else
      match jsSplitChar sep cs with
      | [] => [[c]]
      | g :: gs => (c :: g) :: gs

/-- `includes` on `String`. -/
def occursStr (needle hay : String) : Bool := occursB needle.data hay.data

/- ## Length lemmas for the scanners (used for termination) -/

theorem dropWhileLenLe (p : Char → Bool) : ∀ l : List Char, (l.dropWhile p).length ≤ l.length
  | [] => le_refl _
  | c :: cs => by
    rw [List.dropWhile]
    cases p c <;> simp <;> exact Nat.le_succ_of_le (dropWhileLenLe p cs)

theorem ciStripLen : ∀ p cs r, ciStrip p cs = some r → r.length + p.length = cs.length := by
  intro p
  induction p with
  | nil => intro cs r h; simp [ciStrip] at h; simp [h]
  | cons a ps ih =>
    intro cs r h
    cases cs with
    | nil => simp [ciStrip] at h
    | cons c cs' =>
      simp only [ciStrip] at h
      split at h
      · have := ih cs' r h
        simp [List.length_cons]; omega
      · exact absurd h (by simp)

theorem csStripLen : ∀ p cs r, csStrip p cs = some r → r.length + p.length = cs.length := by
  intro p
  induction p with
  | nil => intro cs r h; simp [csStrip] at h; simp [h]
  | cons a ps ih =>
    intro cs r h
    cases cs with
    | nil => simp [csStrip] at h
    | cons c cs' =>
      simp only [csStrip] at h
      split at h
      · have := ih cs' r h
        simp [List.length_cons]; omega
      · exact absurd h (by simp)

theorem skipToCharLen (stop : Char) :
    ∀ cs r, skipToChar stop cs = some r → r.length < cs.length := by
  intro cs
  induction cs with
  | nil => intro r h; simp [skipToChar] at h
  | cons c cs' ih =>
    intro r h
    simp only [skipToChar] at h
    split at h
    · simp only [Option.some.injEq] at h
      subst h
      simp [List.length_cons]
    · have := ih r h
      simp [List.length_cons]; omega

/- ## htmlCleaner.ts : `stripCssJs` (lines 78–105) -/

/-- Match `<tag[^>]*>` (case-insensitive, no word boundary, as in the
source's block and self-closing patterns; `<tag[^>]*\/?>` recognises the
same strings since `/` ∈ `[^>]`).  Returns the remainder after `>`. -/
def matchOpenTagCI (tag : List Char) (cs : List Char) : Option (List Char) :=
  match ciStrip ('<' :: tag) cs with
  | none => none
  | some r => skipToChar '>' r

/-- Consume `\s*>` (the tail of the closing pattern `</tag\s*>`). -/
def spacesThenGt : List Char → Option (List Char)
  | [] => none
  | c :: cs => if c = '>' then some cs else if jsSpace c then spacesThenGt cs else none

/-- Match `</tag\s*>` (case-insensitive); remainder after `>`. -/
def matchCloseTagCI (tag : List Char) (cs : List Char) : Option (List Char) :=
  match ciStrip ('<' :: '/' :: tag) cs with
  | none => none
  | some r => spacesThenGt r

/-- Find the first (leftmost) `</tag\s*>` and return the remainder after
it (the non-greedy `[\s\S]*?` of the block pattern). -/
def findCloseTag (tag : List Char) : List Char → Option (List Char)
  | [] => none
  | c :: cs =>
    match matchCloseTagCI tag (c :: cs) with
    | some r => some r
    | none => findCloseTag tag cs

theorem matchOpenTagCILen (tag cs r) (h : matchOpenTagCI tag cs = some r) :
    r.length < cs.length := by
  unfold matchOpenTagCI at h
  split at h
  · exact absurd h (by simp)
  · rename_i r1 heq
    have h1 := ciStripLen _ _ _ heq
    have h2 := skipToCharLen _ _ _ h
    simp [List.length_cons] at h1
    omega

theorem spacesThenGtLen : ∀ cs r, spacesThenGt cs = some r → r.length < cs.length := by
  intro cs
  induction cs with
  | nil => intro r h; simp [spacesThenGt] at h
  | cons c cs' ih =>
    intro r h
    simp only [spacesThenGt] at h
    split at h
    · simp only [Option.some.injEq] at h
      subst h
      simp [List.length_cons]
    · split at h
      · have := ih r h; simp [List.length_cons]; omega
      · exact absurd h (by simp)

theorem matchCloseTagCILen (tag cs r) (h : matchCloseTagCI tag cs = some r) :
    r.length < cs.length := by
  unfold matchCloseTagCI at h
  split at h
  · exact absurd h (by simp)
  · rename_i r1 heq
    have h1 := ciStripLen _ _ _ heq
    have h2 := spacesThenGtLen _ _ h
    simp [List.length_cons] at h1
    omega

theorem findCloseTagLen (tag) : ∀ cs r, findCloseTag tag cs = some r → r.length < cs.length := by
  intro cs
  induction cs with
  | nil => intro r h; simp [findCloseTag] at h
  | cons c cs' ih =>
    intro r h
    simp only [findCloseTag] at h
    split at h
    · rename_i heq
      simp at h
      subst h
      exact matchCloseTagCILen _ _ _ heq
    · have := ih r h
      simp [List.length_cons]; omega

/-- One global pass of `clean.replace(new RegExp(`<tag[^>]*>[\s\S]*?<\/tag\s*>`, "gi"), " ")`:
each matched block becomes a single space; scanning resumes after the
match (JS `g` semantics); a position that fails to match advances one
character. -/
def removeTagBlocks (tag : List Char) : List Char → List Char
  | [] => []
  | c :: cs =>
    match h1 : matchOpenTagCI tag (c :: cs) with
    | some afterOpen =>
      match h2 : findCloseTag tag afterOpen with
      | some rest => ' ' :: removeTagBlocks tag rest
      | none => c :: removeTagBlocks tag cs
    | none => c :: removeTagBlocks tag cs
termination_by cs => cs.length
decreasing_by
  · have ha := matchOpenTagCILen tag _ _ h1
    have hb := findCloseTagLen tag _ _ h2
    simp [List.length_cons] at ha ⊢
    omega
  · simp [List.length_cons]
  · simp [List.length_cons]

/-- One global pass of the self-closing pattern
`clean.replace(new RegExp(`<tag[^>]*\/?>`, "gi"), " ")`. -/
def removeSelfClosingTags (tag : List Char) : List Char → List Char
  | [] => []
  | c :: cs =>
    match h1 : matchOpenTagCI tag (c :: cs) with
    | some rest => ' ' :: removeSelfClosingTags tag rest
    | none => c :: removeSelfClosingTags tag cs
termination_by cs => cs.length
decreasing_by
  · have := matchOpenTagCILen tag _ _ h1
    simp [List.length_cons] at this ⊢
    omega
  · simp [List.length_cons]

/-- Find the first occurrence of the literal `pat` (case-sensitive) and
return the remainder after it. -/
def findSeqCS (pat : List Char) : List Char → Option (List Char)
  | [] => none
  | c :: cs =>
    match csStrip pat (c :: cs) with
    | some r => some r
    | none => findSeqCS pat cs

theorem findSeqCSLen (pat) (hp : pat ≠ []) :
    ∀ cs r, findSeqCS pat cs = some r → r.length < cs.length := by
  intro cs
  induction cs with
  | nil => intro r h; simp [findSeqCS] at h
  | cons c cs' ih =>
    intro r h
    simp only [findSeqCS] at h
    split at h
    · rename_i heq
      simp at h
      subst h
      have := csStripLen _ _ _ heq
      have : 0 < pat.length := List.length_pos.mpr hp
      omega
    · have := ih r h
      simp [List.length_cons]; omega

/-- `clean.replace(/<!--[\s\S]*?-->/g, "")`: comments removed with an
empty replacement (so the surrounding text is spliced together). -/
def removeComments : List Char → List Char
  | [] => []
  | c :: cs =>
    match h1 : csStrip ('<' :: '!' :: '-' :: '-' :: []) (c :: cs) with
    | some after =>
      match h2 : findSeqCS ('-' :: '-' :: '>' :: []) after with
      | some rest => removeComments rest
      | none => c :: removeComments cs
    | none => c :: removeComments cs
termination_by cs => cs.length
decreasing_by
  · have ha := csStripLen _ _ _ h1
    have hb := findSeqCSLen _ (by simp) _ _ h2
    simp [List.length_cons] at ha ⊢
    omega
  · simp [List.length_cons]
  · simp [List.length_cons]

/-- `rel\s*=\s*(['"])stylesheet\1` attempted at the current position
(case-insensitive, backreference `\1` forces the same quote). -/
def relAt (cs : List Char) : Bool :=
  match ciStrip ('r' :: 'e' :: 'l' :: []) cs with
  | none => false
  | some r =>
    match r.dropWhile jsSpace with
    | '=' :: r2 =>
      match r2.dropWhile jsSpace with
      | q :: r4 =>
        if q = '\'' || q = '"' then
          match ciStrip ('s' :: 't' :: 'y' :: 'l' :: 'e' :: 's' :: 'h' :: 'e' :: 'e' :: 't' :: []) r4 with
          | some (q2 :: _) => q2 = q
          | _ => false
        else false
      | [] => false
    | _ => false

/-- Scan the attribute region for `\brel\s*=\s*(['"])stylesheet\1`;
`prev` is the character before the current position (for the `\b`). -/
def relScan (prev : Char) : List Char → Bool
  | [] => false
  | c :: cs => (!(isWordChar prev) && relAt (c :: cs)) || relScan c cs

/-- Match `<link\b[^>]*\brel\s*=\s*(['"])stylesheet\1[^>]*>` at the
current position (case-insensitive); remainder after `>`.  The `[^>]*`
runs confine everything between `<link` and the closing `>` to the
maximal `>`-free region. -/
def matchLinkStylesheet (cs : List Char) : Option (List Char) :=
  match ciStrip ('<' :: 'l' :: 'i' :: 'n' :: 'k' :: []) cs with
  | none => none
  | some r =>
    match r.head? with
    | none => none
    | some d =>
      if isWordChar d then none
      else
        match r.dropWhile (fun c => c ≠ '>') with
        | [] => none
        | _ :: tail =>
          if relScan 'k' (r.takeWhile (fun c => c ≠ '>')) then some tail else none

theorem matchLinkStylesheetLen (cs r) (h : matchLinkStylesheet cs = some r) :
    r.length < cs.length := by
  unfold matchLinkStylesheet at h
  split at h
  · exact absurd h (by simp)
  · rename_i r1 heq
    have h1 := ciStripLen _ _ _ heq
    split at h
    · exact absurd h (by simp)
    · split at h
      · exact absurd h (by simp)
      · split at h
        · exact absurd h (by simp)
        · rename_i tail hdrop
          split at h
          · simp only [Option.some.injEq] at h
            subst h
            have h2 : ((r1.dropWhile (fun c => c ≠ '>'))).length ≤ r1.length :=
              dropWhileLenLe _ r1
            rw [hdrop] at h2
            simp [List.length_cons] at h1 h2 ⊢
            omega
          · exact absurd h (by simp)

/-- One global pass of
`clean.replace(/<link\b[^>]*\brel\s*=\s*(['"])stylesheet\1[^>]*>/gi, "")`
(empty replacement splices the surroundings). -/
def removeStylesheetLinks : List Char → List Char
  | [] => []
  | c :: cs =>
    match h1 : matchLinkStylesheet (c :: cs) with
    | some rest => removeStylesheetLinks rest
    | none => c :: removeStylesheetLinks cs
termination_by cs => cs.length
decreasing_by
  · have := matchLinkStylesheetLen _ _ h1
    simp [List.length_cons] at this ⊢
    omega
  · simp [List.length_cons]

/-- Match `\sstyle\s*=\s*(['"])[\s\S]*?\1` at the current position
(case-insensitive; the leading whitespace character is part of the
match; the non-greedy body runs to the first repeat of the quote). -/
def matchStyleAttr : List Char → Option (List Char)
  | [] => none
  | c :: r =>
    if jsSpace c then
      match ciStrip ('s' :: 't' :: 'y' :: 'l' :: 'e' :: []) r with
      | none => none
      | some r1 =>
        match r1.dropWhile jsSpace with
        | '=' :: r3 =>
          match r3.dropWhile jsSpace with
          | q :: r5 => if q = '\'' || q = '"' then skipToChar q r5 else none
          | [] => none
        | _ => none
    else none

theorem matchStyleAttrLen : ∀ cs r, matchStyleAttr cs = some r → r.length < cs.length := by
  intro cs r h
  cases cs with
  | nil => simp [matchStyleAttr] at h
  | cons c t =>
    simp only [matchStyleAttr] at h
    split at h
    · split at h
      · exact absurd h (by simp)
      · rename_i r1 heq
        have h1 := ciStripLen _ _ _ heq
        split at h
        · rename_i r3 hdw
          have h3 : (r1.dropWhile jsSpace).length ≤ r1.length := dropWhileLenLe _ r1
          rw [hdw] at h3
          split at h
          · rename_i q r5 hdw2
            have h4 : (r3.dropWhile jsSpace).length ≤ r3.length := dropWhileLenLe _ r3
            rw [hdw2] at h4
            split at h
            · have h5 := skipToCharLen _ _ _ h
              simp [List.length_cons] at h1 h3 h4 ⊢
              omega
            · exact absurd h (by simp)
          · exact absurd h (by simp)
        · exact absurd h (by simp)
    · exact absurd h (by simp)

/-- One global pass of `clean.replace(/\sstyle\s*=\s*(['"])[\s\S]*?\1/gi, "")`. -/
def removeInlineStyles : List Char → List Char
  | [] => []
  | c :: cs =>
    match h1 : matchStyleAttr (c :: cs) with
    | some rest => removeInlineStyles rest
    | none => c :: removeInlineStyles cs
termination_by cs => cs.length
decreasing_by
  · have := matchStyleAttrLen _ _ h1
    simp [List.length_cons] at this ⊢
    omega
  · simp [List.length_cons]

/-- The `tagsToRemove` list of `stripCssJs`. -/
def tagsToRemove : List (List Char) :=
  [('s' :: 'c' :: 'r' :: 'i' :: 'p' :: 't' :: []),
   ('s' :: 't' :: 'y' :: 'l' :: 'e' :: []),
   ('n' :: 'o' :: 's' :: 'c' :: 'r' :: 'i' :: 'p' :: 't' :: []),
   ('s' :: 'v' :: 'g' :: []),
   ('p' :: 'a' :: 't' :: 'h' :: []),
   ('t' :: 'e' :: 'm' :: 'p' :: 'l' :: 'a' :: 't' :: 'e' :: [])]

/-- `stripCssJs` from `htmlCleaner.ts` (lines 78–105): for each tag,
remove `<tag …>…</tag>` blocks then stray/self-closing `<tag …>` (both
replaced by a space); then HTML comments, stylesheet `<link>` tags and
inline `style` attributes (all replaced by the empty string). -/
def stripCssJs (html : String) : String :=
  if html = "" then ""
  else
    let afterTags :=
      tagsToRemove.foldl (fun acc tag => removeSelfClosingTags tag (removeTagBlocks tag acc))
        html.data
    String.mk (removeInlineStyles (removeStylesheetLinks (removeComments afterTags)))

/- ## htmlCleaner.ts : extraction helpers and `getVisibleText` -/

/-- Split at the first (leftmost) case-insensitive occurrence of `pat`:
returns the text before it and the remainder after it. -/
def ciSplitAt (pat : List Char) : List Char → Option (List Char × List Char)
  | [] => match ciStrip pat [] with
    | some r => some ([], r)
    | none => none
  | c :: cs =>
    match ciStrip pat (c :: cs) with
    | some r => some ([], r)
    | none =>
      match ciSplitAt pat cs with
      | some (pre, rest) => some (c :: pre, rest)
      | none => none

theorem ciSplitAtLen :
    ∀ cs pat pre rest, ciSplitAt pat cs = some (pre, rest) →
      pre.length + pat.length + rest.length = cs.length := by
  intro cs
  induction cs with
  | nil =>
    intro pat pre rest h
    simp only [ciSplitAt] at h
    split at h
    · rename_i r heq
      have hl := ciStripLen _ _ _ heq
      simp only [Option.some.injEq, Prod.mk.injEq] at h
      obtain ⟨h1, h2⟩ := h
      subst h1; subst h2
      simp only [List.length_nil, List.length_cons] at hl ⊢
      omega
    · exact absurd h (by simp)
  | cons c cs' ih =>
    intro pat pre rest h
    simp only [ciSplitAt] at h
    split at h
    · rename_i r heq
      have hl := ciStripLen _ _ _ heq
      simp only [Option.some.injEq, Prod.mk.injEq] at h
      obtain ⟨h1, h2⟩ := h
      subst h1; subst h2
      simp only [List.length_nil, List.length_cons] at hl ⊢
      omega
    · split at h
      · rename_i pre' rest' heq
        simp only [Option.some.injEq, Prod.mk.injEq] at h
        obtain ⟨h1, h2⟩ := h
        subst h1; subst h2
        have := ih _ _ _ heq
        simp only [List.length_cons]
        omega
      · exact absurd h (by simp)

/-- Capture group of `/<title[^>]*>([\s\S]*?)<\/title>/i`: first `<title…>`
with a following `</title>`; the non-greedy body runs to the first close. -/
def captureTitle : List Char → Option (List Char)
  | [] => none
  | c :: cs =>
    match matchOpenTagCI ('t' :: 'i' :: 't' :: 'l' :: 'e' :: []) (c :: cs) with
    | some afterOpen =>
      match ciSplitAt ('<' :: '/' :: 't' :: 'i' :: 't' :: 'l' :: 'e' :: '>' :: []) afterOpen with
      | some (cap, _) => some cap
      | none => captureTitle cs
    | none => captureTitle cs

/-- Scan a `>`-free region for `name\s*=\s*["']description["']` (the two
quotes are independent character classes in the source pattern); returns
the remainder after the closing quote. -/
def nameDescAt (cs : List Char) : Option (List Char) :=
  match ciStrip ('n' :: 'a' :: 'm' :: 'e' :: []) cs with
  | none => none
  | some r =>
    match r.dropWhile jsSpace with
    | '=' :: r2 =>
      match r2.dropWhile jsSpace with
      | q :: r4 =>
        if q = '\'' || q = '"' then
          match ciStrip ('d' :: 'e' :: 's' :: 'c' :: 'r' :: 'i' :: 'p' :: 't' :: 'i' :: 'o' :: 'n' :: []) r4 with
          | some (q2 :: r5) => if q2 = '\'' || q2 = '"' then some r5 else none
          | _ => none
        else none
      | [] => none
    | _ => none

def metaScanName : List Char → Option (List Char)
  | [] => none
  | c :: cs =>
    if c = '>' then none
    else
      match nameDescAt (c :: cs) with
      | some r => some r
      | none => metaScanName cs

/-- Scan a `>`-free region for `content\s*=\s*["']`; remainder after the
opening quote. -/
def contentAt (cs : List Char) : Option (List Char) :=
  match ciStrip ('c' :: 'o' :: 'n' :: 't' :: 'e' :: 'n' :: 't' :: []) cs with
  | none => none
  | some r =>
    match r.dropWhile jsSpace with
    | '=' :: r2 =>
      match r2.dropWhile jsSpace with
      | q :: r4 => if q = '\'' || q = '"' then some r4 else none
      | [] => none
    | _ => none

def metaScanContent : List Char → Option (List Char)
  | [] => none
  | c :: cs =>
    if c = '>' then none
    else
      match contentAt (c :: cs) with
      | some r => some r
      | none => metaScanContent cs

/-- The non-greedy capture `([\s\S]*?)["']`: text before the first quote
of either kind (fails when no quote follows). -/
def splitAtQuote (cs : List Char) : Option (List Char) :=
  if (cs.dropWhile (fun c => !(c = '\'' || c = '"'))).isEmpty then none
  else some (cs.takeWhile (fun c => !(c = '\'' || c = '"')))

/-- Capture group of the meta-description pattern
`/<meta[^>]*name\s*=\s*["']description["'][^>]*content\s*=\s*["']([\s\S]*?)["']/i`.
Inner alternatives are scanned leftmost-first (the JS engine's greedy
`[^>]*` backtracking can pick a later `name`/`content` occurrence inside
the same tag, which never changes whether a match exists). -/
def captureMetaDesc : List Char → Option (List Char)
  | [] => none
  | c :: cs =>
    match ciStrip ('<' :: 'm' :: 'e' :: 't' :: 'a' :: []) (c :: cs) with
    | some r =>
      match metaScanName r with
      | some r2 =>
        match metaScanContent r2 with
        | some r3 =>
          match splitAtQuote r3 with
          | some cap => some cap
          | none => captureMetaDesc cs
        | none => captureMetaDesc cs
      | none => captureMetaDesc cs
    | none => captureMetaDesc cs

/-- `extractOne` from `htmlCleaner.ts` (lines 110–114): first capture of
the pattern, whitespace-collapsed and trimmed; `""` when there is no
match or the capture is empty. -/
def extractOne (html : List Char) (cap : List Char → Option (List Char)) : List Char :=
  match cap html with
  | none => []
  | some t => if t = [] then [] else jsTrim (collapseWs t)

/-- Match `<tag\b[^>]*>` (case-insensitive, with the word boundary after
the tag name); remainder after `>`. -/
def matchOpenTagB (tag : List Char) (cs : List Char) : Option (List Char) :=
  match ciStrip ('<' :: tag) cs with
  | none => none
  | some r =>
    match r.head? with
    | none => none
    | some d => if isWordChar d then none else skipToChar '>' r

theorem matchOpenTagBLen (tag cs r) (h : matchOpenTagB tag cs = some r) :
    r.length < cs.length := by
  unfold matchOpenTagB at h
  split at h
  · exact absurd h (by simp)
  · rename_i r1 heq
    have h1 := ciStripLen _ _ _ heq
    split at h
    · exact absurd h (by simp)
    · split at h
      · exact absurd h (by simp)
      · have h2 := skipToCharLen _ _ _ h
        simp [List.length_cons] at h1
        omega

/-- All raw captures of `new RegExp(`<tag\b[^>]*>([\s\S]*?)</tag>`, "gi")`
in order (`matchAll`; scanning resumes after each match). -/
def extractManyAux (tag : List Char) : List Char → List (List Char)
  | [] => []
  | c :: cs =>
    match h1 : matchOpenTagB tag (c :: cs) with
    | some afterOpen =>
      match h2 : ciSplitAt ('<' :: '/' :: tag ++ ['>']) afterOpen with
      | some (cap, rest) => cap :: extractManyAux tag rest
      | none => extractManyAux tag cs
    | none => extractManyAux tag cs
termination_by cs => cs.length
decreasing_by
  · have ha := matchOpenTagBLen tag _ _ h1
    have hb := ciSplitAtLen _ _ _ _ h2
    simp [List.length_cons] at ha ⊢
    omega
  · simp [List.length_cons]
  · simp [List.length_cons]

/-- `txt.replace(/<[^>]+>/gi, " ")`: the `+` needs at least one
non-`>` character inside the angle brackets. -/
def innerTagEnd : List Char → Option (List Char)
  | [] => none
  | d :: ds => if d = '>' then none else skipToChar '>' (d :: ds)

theorem innerTagEndLen (cs r) (h : innerTagEnd cs = some r) : r.length < cs.length := by
  cases cs with
  | nil => simp [innerTagEnd] at h
  | cons d ds =>
    simp only [innerTagEnd] at h
    split at h
    · exact absurd h (by simp)
    · exact skipToCharLen _ _ _ h

def stripInnerTags : List Char → List Char
  | [] => []
  | c :: cs =>
    if c = '<' then
      match h1 : innerTagEnd cs with
      | some rest => ' ' :: stripInnerTags rest
      | none => c :: stripInnerTags cs
    else c :: stripInnerTags cs
termination_by cs => cs.length
decreasing_by
  · have := innerTagEndLen _ _ h1
    simp [List.length_cons] at this ⊢
    omega
  · simp [List.length_cons]
  · simp [List.length_cons]

/-- The collection loop of `extractMany` (lines 119–132): per capture,
strip inner tags, collapse whitespace, trim; keep non-empty texts until
`limit` are collected. -/
def collectTexts : Nat → List (List Char) → List (List Char)
  | _, [] => []
  | 0, _ => []
  | Nat.succ n, cap :: rest =>
    if jsTrim (collapseWs (stripInnerTags cap)) = [] then collectTexts (Nat.succ n) rest
    else jsTrim (collapseWs (stripInnerTags cap)) :: collectTexts n rest

/-- `extractMany` from `htmlCleaner.ts` (lines 119–132). -/
def extractMany (html : List Char) (tag : List Char) (limit : Nat) : List (List Char) :=
  collectTexts limit (extractManyAux tag html)

/-- One iteration target of the `getVisibleText` "nuke" while-loop for one
tag: at an occurrence of `<tag`, delete through the first `</tag>` (the
`indexOf('>', endIndex) + 1` lands exactly after `</tag>`); without a
close, delete through the first `>`; with no `>` at all the loop breaks,
leaving the rest untouched.  Deletions insert a single space, which never
creates an occurrence spanning the seam, so the source's
restart-from-the-beginning loop equals this single left-to-right pass. -/
def nukeTag (tag : List Char) : List Char → List Char
  | [] => []
  | c :: cs =>
    if (ciStrip ('<' :: tag) (c :: cs)).isSome then
      match h1 : ciSplitAt ('<' :: '/' :: tag ++ ['>']) (c :: cs) with
      | some (_, rest) => ' ' :: nukeTag tag rest
      | none =>
        match h2 : skipToChar '>' (c :: cs) with
        | some rest => ' ' :: nukeTag tag rest
        | none => c :: cs
    else c :: nukeTag tag cs
termination_by cs => cs.length
decreasing_by
  · have := ciSplitAtLen _ _ _ _ h1
    simp [List.length_cons] at this ⊢
    omega
  · have := skipToCharLen _ _ _ h2
    simp [List.length_cons] at this ⊢
    omega
  · simp [List.length_cons]

/-- CSS word characters `[a-zA-Z0-9_-]`. -/
def isCssWordChar (c : Char) : Bool := isWordChar c || c = '-'

/-- Match (after a leading `.`) the rest of
`\.[a-zA-Z0-9_-]+[^{]*?{[^}]*?}`: one word character, anything up to the
first `{`, then up to the first `}`. -/
def matchCssBlock : List Char → Option (List Char)
  | [] => none
  | d :: ds =>
    if isCssWordChar d then
      match skipToChar '{' (d :: ds) with
      | some r1 => skipToChar '}' r1
      | none => none
    else none

theorem matchCssBlockLen (cs r) (h : matchCssBlock cs = some r) : r.length < cs.length := by
  cases cs with
  | nil => simp [matchCssBlock] at h
  | cons d ds =>
    simp only [matchCssBlock] at h
    split at h
    · split at h
      · rename_i r1 heq
        have := skipToCharLen _ _ _ heq
        have := skipToCharLen _ _ _ h
        omega
      · exact absurd h (by simp)
    · exact absurd h (by simp)

/-- `txt.replace(/\.[a-zA-Z0-9_-]+[^{]*?{[^}]*?}/g, " ")`. -/
def removeCssBlocks : List Char → List Char
  | [] => []
  | c :: cs =>
    if c = '.' then
      match h1 : matchCssBlock cs with
      | some rest => ' ' :: removeCssBlocks rest
      | none => c :: removeCssBlocks cs
    else c :: removeCssBlocks cs
termination_by cs => cs.length
decreasing_by
  · have := matchCssBlockLen _ _ h1
    simp [List.length_cons] at this ⊢
    omega
  · simp [List.length_cons]
  · simp [List.length_cons]

/-- Match `--[a-zA-Z0-9_\-]+:[^;]+;` at the current position. -/
def matchCssVar (cs : List Char) : Option (List Char) :=
  match csStrip ('-' :: '-' :: []) cs with
  | none => none
  | some r =>
    match r.head? with
    | none => none
    | some d =>
      if isCssWordChar d then
        match r.dropWhile isCssWordChar with
        | ':' :: r2 =>
          match r2.head? with
          | none => none
          | some e => if e = ';' then none else skipToChar ';' r2
        | _ => none
      else none

theorem matchCssVarLen (cs r) (h : matchCssVar cs = some r) : r.length < cs.length := by
  unfold matchCssVar at h
  split at h
  · exact absurd h (by simp)
  · rename_i r1 heq
    have h1 := csStripLen _ _ _ heq
    split at h
    · exact absurd h (by simp)
    · split at h
      · split at h
        · rename_i r2 hdw
          have h2 : (r1.dropWhile isCssWordChar).length ≤ r1.length := dropWhileLenLe _ r1
          rw [hdw] at h2
          split at h
          · exact absurd h (by simp)
          · split at h
            · exact absurd h (by simp)
            · have h3 := skipToCharLen _ _ _ h
              simp [List.length_cons] at h1 h2
              omega
        · exact absurd h (by simp)
      · exact absurd h (by simp)

/-- `txt.replace` of the custom-property pattern `--[a-zA-Z0-9_\-]+:[^;]+;`
(global) with `" "`. -/
def removeCssVars : List Char → List Char
  | [] => []
  | c :: cs =>
    match h1 : matchCssVar (c :: cs) with
    | some rest => ' ' :: removeCssVars rest
    | none => c :: removeCssVars cs
termination_by cs => cs.length
decreasing_by
  · have := matchCssVarLen _ _ h1
    simp [List.length_cons] at this ⊢
    omega
  · simp [List.length_cons]

/-- `getVisibleText` from `htmlCleaner.ts` (lines 137–177): nuke
`script`/`style` spans by string indexing, strip remaining tags, remove
stray CSS rule blocks and custom-property definitions, collapse
whitespace, trim, and truncate to `maxChars`. -/
def getVisibleText (html : List Char) (maxChars : Nat) : List Char :=
  let t1 := [('s' :: 'c' :: 'r' :: 'i' :: 'p' :: 't' :: []),
             ('s' :: 't' :: 'y' :: 'l' :: 'e' :: [])].foldl (fun acc tag => nukeTag tag acc) html
  (jsTrim (collapseWs (removeCssVars (removeCssBlocks (stripInnerTags t1))))).take maxChars

/- ## scraperService.ts : digest construction -/

def MAX_HTML_BYTES : Nat := 300000

def VISIBLE_TEXT_CHARS : Nat := 6000

/-- `new URL(u).hostname` for the `http(s)://` URLs this pipeline builds
(`none` models the constructor throwing): the authority runs to the
first `/`, `?` or `#`; the host is after the last `@` and before `:`,
lower-cased. -/
def urlHostname (url : String) : Option String :=
  match (match csStrip "https://".data url.data with
         | some r => some r
         | none => csStrip "http://".data url.data) with
  | none => none
  | some r =>
    match (jsSplitChar '@' (r.takeWhile (fun c => !(c = '/' || c = '?' || c = '#')))).getLast? with
    | none => none
    | some hp =>
      if jsToLower (hp.takeWhile (fun c => c ≠ ':')) = [] then none
      else some (String.mk (jsToLower (hp.takeWhile (fun c => c ≠ ':'))))

/-- The fixed-format assembly of the digest text block
(`parts` pushes and `parts.join("\n")`). -/
def digestParts (start_url proxyName title meta_desc : String)
    (h1s h2s : List String) (vis : String) : List String :=
  ("START_URL: " ++ start_url) ::
  ((match urlHostname start_url with
    | some h => ["DOMAIN: " ++ h]
    | none => []) ++
   (("PROXY_VIA: " ++ proxyName) :: "\n=== HOMEPAGE DIGEST ===" ::
    ((if title ≠ "" then ["TITLE: " ++ title] else []) ++
     (if meta_desc ≠ "" then ["META_DESCRIPTION: " ++ meta_desc] else []) ++
     (if h1s.length > 0 then ["H1: " ++ String.intercalate " | " h1s] else []) ++
     (if h2s.length > 0 then ["H2: " ++ String.intercalate " | " h2s] else []) ++
     ["\nVISIBLE_TEXT_SNIPPET:", vis])))

/-- `processHtmlToDigest` from `scraperService.ts` (lines 362–392):
strip CSS/JS first, cap to `MAX_HTML_BYTES` second, then extract title,
meta description, up to 4 H1s, up to 8 H2s and the bounded visible-text
snippet, and join the fixed-format parts. -/
def processHtmlToDigest (raw_html start_url proxyName : String) : String :=
  let clean : List Char := (stripCssJs raw_html).data.take MAX_HTML_BYTES
  String.intercalate "\n"
    (digestParts start_url proxyName
      (String.mk (extractOne clean captureTitle))
      (String.mk (extractOne clean captureMetaDesc))
      ((extractMany clean ('h' :: '1' :: []) 4).map String.mk)
      ((extractMany clean ('h' :: '2' :: []) 8).map String.mk)
      (String.mk (getVisibleText clean VISIBLE_TEXT_CHARS)))

/-- The result of `parseFloat` on the raw confidence value the model
returned: `null`/`undefined` inputs, non-numeric parses (`NaN`), or a
number (JS doubles modelled as rationals; all branch tests below are
exact on the values this code sees). -/
inductive ConfInput where
  | jnull : ConfInput
  | jundef : ConfInput
  | nonNumeric : ConfInput
  | num : ℚ → ConfInput
deriving DecidableEq

/-- JS `Math.round`: round half toward positive infinity. -/
def jsRound (q : ℚ) : ℤ := ⌊q + 1/2⌋

/-- `normalizeConfidence` from `enrichmentService.ts` (lines 22–38):
null/undefined/NaN ↦ 5; `(0,1]` scaled ×10; `>10` scaled ÷10; then
`Math.round` and clamp into `[1,10]`. -/
def normalizeConfidence (val : ConfInput) : ℤ :=
  match val with
  | .jnull => 5
  | .jundef => 5
  | .nonNumeric => 5
  | .num q =>
    let n : ℚ := if 0 < q ∧ q ≤ 1 then q * 10 else if 10 < q then q / 10 else q
    let clamped := jsRound n
    if clamped < 1 then 1 else if clamped > 10 then 10 else clamped

/-- C2: confidence normalization always lands in `[1,10]`, follows the
scale-×10 / scale-÷10 / round-and-clamp rule, defaults to 5 on
null/undefined/non-numeric input, and takes the five specified values. -/
theorem claimC2_normalize_confidence :
    (∀ v : ConfInput, 1 ≤ normalizeConfidence v ∧ normalizeConfidence v ≤ 10) ∧
    (∀ q : ℚ, 0 < q → q ≤ 1 →
      normalizeConfidence (.num q) =
        max 1 (min 10 (jsRound (q * 10)))) ∧
    (∀ q : ℚ, 10 < q →
      normalizeConfidence (.num q) =
        max 1 (min 10 (jsRound (q / 10)))) ∧
    normalizeConfidence .jnull = 5 ∧
    normalizeConfidence .jundef = 5 ∧
    normalizeConfidence .nonNumeric = 5 ∧
    normalizeConfidence (.num (8/10)) = 8 ∧
    normalizeConfidence (.num 100) = 10 ∧
    normalizeConfidence (.num 7) = 7 ∧
    normalizeConfidence (.num (-3)) = 1 ∧
    normalizeConfidence .nonNumeric = 5 := by
  refine ⟨?_, ?_, ?_, by norm_num [normalizeConfidence],
    by norm_num [normalizeConfidence], by norm_num [normalizeConfidence],
    by norm_num [normalizeConfidence, jsRound],
    by norm_num [normalizeConfidence, jsRound],
    by norm_num [normalizeConfidence, jsRound],
    by norm_num [normalizeConfidence, jsRound],
    by norm_num [normalizeConfidence]⟩
  · intro v
    cases v with
    | jnull => exact ⟨by norm_num [normalizeConfidence], by norm_num [normalizeConfidence]⟩
    | jundef => exact ⟨by norm_num [normalizeConfidence], by norm_num [normalizeConfidence]⟩
    | nonNumeric => exact ⟨by norm_num [normalizeConfidence], by norm_num [normalizeConfidence]⟩
    | num q =>
      simp only [normalizeConfidence]
      constructor <;> split <;> split <;> omega
  · intro q h0 h1
    simp only [normalizeConfidence]
    rw [if_pos (show 0 < q ∧ q ≤ 1 from ⟨h0, h1⟩)]
    generalize jsRound (q * 10) = r
    split_ifs <;> omega
  · intro q h10
    have hn : ¬ (0 < q ∧ q ≤ 1) := by
      rintro ⟨_, hle⟩; linarith
    simp only [normalizeConfidence]
    rw [if_neg hn, if_pos h10]
    generalize jsRound (q / 10) = r
    split_ifs <;> omega

/-- Witness for C2 at concrete inputs. -/
theorem claimC2_normalize_confidence_witness :
    normalizeConfidence (.num (8/10)) = 8 ∧ normalizeConfidence (.num 100) = 10 := by
  have h := claimC2_normalize_confidence
  exact ⟨h.2.2.2.2.2.2.1, h.2.2.2.2.2.2.2.1⟩

/- ## scraperService.ts : `validateHtml` (lines 345–360) -/

/-- The block-page / captcha / proxy-error signature list. -/
def proxySignatures : List String :=
  ["cloudflare-error", "px-captcha", "captcha-delivery.com",
   "access denied", "checking your browser", "unusual traffic",
   "corsfix_error", "zenrows.com/error", "scrapingbee.com/error",
   "attention required! | cloudflare", "sorry, you have been blocked"]

/-- The signature predicate of `validateHtml`: the signature occurs in
the lower-cased content but not in the lower-cased target URL. -/
def sigMatches (html targetUrl : String) (sig : String) : Bool :=
  occursB sig.data (jsToLower html.data) && !(occursB sig.data (jsToLower targetUrl.data))

/-- `validateHtml` from `scraperService.ts` (lines 345–360), where
`some msg` models `throw new Error(msg)` and `none` models passing. -/
def validateHtml (html targetUrl : String) : Option String :=
  match proxySignatures.find? (sigMatches html targetUrl) with
  | some sig => some ("Blocked by proxy: " ++ sig)
  | none =>
    if html = "" ∨ (jsTrim html.data).length < 200 then some "Insufficient content length"
    else none

/-- C6: validation rejects exactly when a known signature occurs in the
content (and not in the target URL) or the trimmed content is shorter
than 200 characters; a signature match rejects regardless of length; and
the body "Access Denied — please complete captcha" is rejected with the
signature error. -/
theorem claimC6_validate_html :
    (∀ html url : String,
      (validateHtml html url).isSome ↔
        ((∃ sig ∈ proxySignatures, sigMatches html url sig = true) ∨
          (jsTrim html.data).length < 200)) ∧
    (∀ html url sig, proxySignatures.find? (sigMatches html url) = some sig →
      validateHtml html url = some ("Blocked by proxy: " ++ sig)) ∧
    validateHtml "Access Denied — please complete captcha" "https://example.test" =
      some "Blocked by proxy: access denied" := by
  refine ⟨?_, ?_, by decide⟩
  · intro html url
    unfold validateHtml
    rcases hf : proxySignatures.find? (sigMatches html url) with _ | sig
    · have hnone := List.find?_eq_none.mp hf
      constructor
      · intro h
        by_cases hc : (html = "" ∨ (jsTrim html.data).length < 200)
        · rcases hc with hc | hc
          · right
            subst hc
            simp [jsTrim, List.dropWhile]
          · exact Or.inr hc
        · rw [if_neg hc] at h
          simp at h
      · intro h
        rcases h with ⟨sig, hmem, hp⟩ | h
        · exact absurd hp (by simpa using hnone sig hmem)
        · have : (html = "" ∨ (jsTrim html.data).length < 200) := Or.inr h
          simp [this]
    · have hmem := List.mem_of_find?_eq_some hf
      have hp := List.find?_some hf
      simp only [Option.isSome_some, true_iff]
      exact Or.inl ⟨sig, hmem, hp⟩
  · intro html url sig hf
    unfold validateHtml
    rw [hf]

/-- Witness for C6: the claim's concrete scenario, with the signature
hypothesis discharged by computation. -/
theorem claimC6_validate_html_witness :
    validateHtml "Access Denied — please complete captcha" "https://example.test" =
      some "Blocked by proxy: access denied" :=
  claimC6_validate_html.2.1 "Access Denied — please complete captcha" "https://example.test"
    "access denied" (by decide)

/- ## scraperService.ts : `attemptDirectFetch` (lines 184–242) -/

/-- A target URL as `attemptDirectFetch` inspects it: the only structure
the function reads is whether the string starts with `https://`
(`secure`) plus the remainder.  `replace('https://', 'http://')` on such
a URL (whose remainder does not itself contain the scheme substring)
flips the scheme. -/
structure DUrl where
  secure : Bool
  rest : String
deriving DecidableEq

/-- `targetUrl.replace('https://', 'http://')`. -/
def toHttp (u : DUrl) : DUrl := { secure := false, rest := u.rest }

/-- The URL string handed to `fetch` and `validateHtml`. -/
def renderUrl (u : DUrl) : String :=
  (if u.secure then "https://" else "http://") ++ u.rest

/-- Outcome of one `fetch` call: a transport-level throw (network error,
abort, timeout) or an HTTP response with its `ok` flag, status and body. -/
inductive FetchOutcome where
  | transport (msg : String)
  | resp (ok : Bool) (status : Nat) (body : String)
deriving DecidableEq

/-- `attemptDirectFetch` from `scraperService.ts` (lines 184–242),
returning the result (`Except` models throw) together with the list of
URLs actually fetched: on a response that is not `ok`, an `https://`
target is retried once over plain `http://`; a transport-level throw is
rethrown by the catch block with no retry; an `ok` response is validated
and returned. -/
def attemptDirectFetch (env : DUrl → FetchOutcome) (u : DUrl) :
    Except String String × List DUrl :=
  match env u with
  | .transport m => (.error m, [u])
  | .resp ok status body =>
    if ok then
      match validateHtml body (renderUrl u) with
      | some e => (.error e, [u])
      | none => (.ok body, [u])
    else if hs : u.secure = true then
      ((attemptDirectFetch env (toHttp u)).1, u :: (attemptDirectFetch env (toHttp u)).2)
    else (.error ("HTTP " ++ toString status), [u])
termination_by (if u.secure then 1 else 0)
decreasing_by
  all_goals simp [toHttp, hs]

deriving instance DecidableEq for Except

/-- A fetch world in which the HTTPS attempt dies at the transport level
while the same target over plain HTTP would return a long valid body. -/
def c5env : DUrl → FetchOutcome := fun u =>
  if u.secure then .transport "socket hang up"
  else .resp true 200 (String.mk (List.replicate 250 'a'))

unseal attemptDirectFetch in
set_option maxRecDepth 16000 in
/-- C5 counterexample: a direct HTTPS attempt failing at the transport
level is NOT retried over plain HTTP — the thrown transport error is
rethrown, the call trace contains only the HTTPS target, and yet the
plain-HTTP attempt would have succeeded. -/
theorem claimC5_counterexample :
    attemptDirectFetch c5env ⟨true, "old-site.test"⟩ =
      (Except.error "socket hang up", [⟨true, "old-site.test"⟩]) ∧
    attemptDirectFetch c5env ⟨false, "old-site.test"⟩ =
      (Except.ok (String.mk (List.replicate 250 'a')), [⟨false, "old-site.test"⟩]) := by
  constructor
  · decide
  · decide

/-- C5 amended: the once-over-plain-HTTP retry of a direct HTTPS attempt
happens exactly on an HTTP response that is not `ok`; a transport-level
failure propagates with no retry. -/
theorem claimC5_amended (env : DUrl → FetchOutcome) (u : DUrl) (hsec : u.secure = true) :
    (∀ m, env u = .transport m → attemptDirectFetch env u = (.error m, [u])) ∧
    (∀ st body, env u = .resp false st body →
      attemptDirectFetch env u =
        ((attemptDirectFetch env (toHttp u)).1, u :: (attemptDirectFetch env (toHttp u)).2) ∧
      (attemptDirectFetch env (toHttp u)).2 = [toHttp u]) := by
  constructor
  · intro m hm
    rw [attemptDirectFetch.eq_def, hm]
  · intro st body hm
    constructor
    · rw [attemptDirectFetch.eq_def, hm]
      simp [hsec]
    · rcases henv : env (toHttp u) with m | ⟨ok, st', body'⟩
      · rw [attemptDirectFetch.eq_def, henv]
      · cases ok
        · rw [attemptDirectFetch.eq_def, henv]
          simp [toHttp]
        · rw [attemptDirectFetch.eq_def, henv]
          rcases hv : validateHtml body' (renderUrl (toHttp u)) with _ | e
          · simp [hv]
          · simp [hv]

unseal attemptDirectFetch in
set_option maxRecDepth 16000 in
/-- Witness for C5's amended theorem at a concrete non-`ok` HTTPS
response. -/
theorem claimC5_amended_witness :
    attemptDirectFetch (fun u => if u.secure then .resp false 500 "" else .transport "refused")
        ⟨true, "x.test"⟩ =
      (Except.error "refused", [⟨true, "x.test"⟩, ⟨false, "x.test"⟩]) := by
  have h := claimC5_amended (fun u => if u.secure then .resp false 500 "" else .transport "refused")
    ⟨true, "x.test"⟩ rfl
  have h2 := (h.2 500 "" (by decide)).1
  rw [h2]
  decide

/- ## jobProcessor.ts / enrichmentService.ts : shared status values -/

/-- Row status values (`pending | processing | retrying | failed |
completed`). -/
inductive JStatus where
  | pending
  | processing
  | retrying
  | failed
  | completed
deriving DecidableEq

/- ## enrichmentService.ts : `enrichSingle` (lines 43–125) -/

/-- One `content` entry of a model output item. -/
structure ContentPart where
  type : String
  text : String
deriving DecidableEq

/-- One entry of `data.output`; `content` is `none` when the field is
missing / not an array. -/
structure OutputItem where
  content : Option (List ContentPart)
deriving DecidableEq

structure UsageData where
  input_tokens : Nat
  output_tokens : Nat
deriving DecidableEq

/-- The decoded JSON body of the OpenAI `/v1/responses` reply; `output`
is `none` when missing / not an array, `usage` when missing. -/
structure ResponseData where
  output : Option (List OutputItem)
  usage : Option UsageData
deriving DecidableEq

/-- The double `for` loop extracting `output_text`: per item, the first
content part with `type === "output_text"`; the outer loop stops at the
first truthy text (an empty text is falsy, so scanning continues and the
final value is falsy when nothing truthy appears). -/
def firstOutputText : List OutputItem → Option String
  | [] => none
  | it :: rest =>
    match it.content with
    | none => firstOutputText rest
    | some parts =>
      match parts.find? (fun p => p.type = "output_text") with
      | some p => if p.text ≠ "" then some p.text else firstOutputText rest
      | none => firstOutputText rest

/-- Outcome of the classifier HTTP call. -/
inductive ApiOutcome where
  | transport (msg : String)
  | httpError (status : Nat)
  | jsonOk (data : ResponseData)

/-- The object `JSON.parse(output_text)` yields (fields the code reads);
missing fields are `none`, confidence as handed to
`normalizeConfidence`. -/
structure Parsed where
  classification : Option String
  confidence : ConfInput
  reasoning : Option String

/-- Environment of one `enrichSingle` call: the API outcome and the
runtime `JSON.parse` (whose throw carries a runtime-built message). -/
structure EnrichEnv where
  api : ApiOutcome
  parse : String → Except String Parsed

structure BatchItem where
  contact_id : String
  email : String
  digest : String

structure EnrichResult where
  contact_id : String
  classification : String
  industry : String
  confidence : ℤ
  reasoning : String
  input_tokens : Nat
  output_tokens : Nat
  cost : ℚ
  status : JStatus
deriving DecidableEq

def INPUT_COST_PER_1M : ℚ := 8 / 10

def OUTPUT_COST_PER_1M : ℚ := 32 / 10

/-- `parseFloat(x.toFixed(6))`: round to 6 decimals. -/
def toFixed6 (q : ℚ) : ℚ := (jsRound (q * 1000000) : ℚ) / 1000000

/-- JS `a || dflt` on an optional string (empty string is falsy). -/
def jsOrStr (v : Option String) (dflt : String) : String :=
  match v with
  | some s => if s = "" then dflt else s
  | none => dflt

/-- The `catch` block's terminal-failure result object. -/
def failureResult (item : BatchItem) (msg : String) : EnrichResult :=
  { contact_id := item.contact_id
    classification := "ERROR"
    industry := "ERROR"
    confidence := 1
    reasoning := msg
    input_tokens := 0
    output_tokens := 0
    cost := 0
    status := .failed }

/-- `enrichSingle` from `enrichmentService.ts` (lines 43–125): a total
function — every failure (transport, non-OK HTTP status, missing model
output, JSON parse error) resolves to the terminal-failure object rather
than throwing. -/
def enrichSingle (env : EnrichEnv) (item : BatchItem) : EnrichResult :=
  match env.api with
  | .transport msg => failureResult item msg
  | .httpError status => failureResult item ("OpenAI API Error: " ++ toString status)
  | .jsonOk data =>
    match firstOutputText (data.output.getD []) with
    | none => failureResult item "No model output returned."
    | some output_text =>
      match env.parse output_text with
      | .error msg => failureResult item msg
      | .ok parsed =>
        { contact_id := item.contact_id
          classification := jsOrStr parsed.classification "Unknown"
          industry := jsOrStr parsed.classification "Unknown"
          confidence := normalizeConfidence parsed.confidence
          reasoning := jsOrStr parsed.reasoning "No reasoning provided."
          input_tokens := (data.usage.map UsageData.input_tokens).getD 0
          output_tokens := (data.usage.map UsageData.output_tokens).getD 0
          cost := toFixed6
            ((((data.usage.map UsageData.input_tokens).getD 0 : ℚ) / 1000000 * INPUT_COST_PER_1M) +
             (((data.usage.map UsageData.output_tokens).getD 0 : ℚ) / 1000000 * OUTPUT_COST_PER_1M))
          status := .completed }

/-- C9: `enrichSingle` never rejects — every outcome is either a
completed result or exactly the terminal-failure object with
classification "ERROR", status failed, confidence 1 and cost 0; each of
the four failure modes produces it with the corresponding message. -/
theorem claimC9_enrich_never_rejects :
    (∀ env item, (enrichSingle env item).status = JStatus.completed ∨
      enrichSingle env item = failureResult item (enrichSingle env item).reasoning) ∧
    (∀ env item msg, env.api = .transport msg →
      enrichSingle env item = failureResult item msg) ∧
    (∀ env item status, env.api = .httpError status →
      enrichSingle env item = failureResult item ("OpenAI API Error: " ++ toString status)) ∧
    (∀ env item data, env.api = .jsonOk data → firstOutputText (data.output.getD []) = none →
      enrichSingle env item = failureResult item "No model output returned.") ∧
    (∀ env item data t m, env.api = .jsonOk data →
      firstOutputText (data.output.getD []) = some t → env.parse t = .error m →
      enrichSingle env item = failureResult item m) ∧
    (∀ item msg, (failureResult item msg).classification = "ERROR" ∧
      (failureResult item msg).status = JStatus.failed ∧
      (failureResult item msg).confidence = 1 ∧ (failureResult item msg).cost = 0) := by
  refine ⟨?_, ?_, ?_, ?_, ?_, ?_⟩
  · intro env item
    rcases ha : env.api with msg | status | data
    · right
      simp [enrichSingle, ha, failureResult]
    · right
      simp [enrichSingle, ha, failureResult]
    · rcases hf : firstOutputText (data.output.getD []) with _ | t
      · right
        simp [enrichSingle, ha, hf, failureResult]
      · rcases hp : env.parse t with m | parsed
        · right
          simp [enrichSingle, ha, hf, hp, failureResult]
        · left
          simp [enrichSingle, ha, hf, hp]
  · intro env item msg h
    unfold enrichSingle
    rw [h]
  · intro env item status h
    unfold enrichSingle
    rw [h]
  · intro env item data h hf
    unfold enrichSingle
    rw [h]
    simp only [hf]
  · intro env item data t m h hf hp
    unfold enrichSingle
    rw [h]
    simp only [hf, hp]
  · intro item msg
    exact ⟨rfl, rfl, rfl, rfl⟩

/-- Witness for C9 at a concrete transport failure. -/
theorem claimC9_enrich_never_rejects_witness :
    enrichSingle ⟨.transport "fetch failed", fun _ => .error "x"⟩ ⟨"c1", "a@b.test", "d"⟩ =
      failureResult ⟨"c1", "a@b.test", "d"⟩ "fetch failed" :=
  claimC9_enrich_never_rejects.2.1 ⟨.transport "fetch failed", fun _ => .error "x"⟩
    ⟨"c1", "a@b.test", "d"⟩ "fetch failed" rfl

/- ## scraperService.ts : `fetchDigest` (lines 69–182) -/

/-- `normalizeUrl` (lines 60–67): trim; empty stays empty; prefix
`https://` when no scheme is present. -/
def normalizeUrl (url_or_domain : String) : String :=
  let s := String.mk (jsTrim url_or_domain.data)
  if s = "" then ""
  else if !("http://".data.isPrefixOf s.data) && !("https://".data.isPrefixOf s.data) then
    "https://" ++ s
  else s

/-- Outcome of `dns.resolve4(hostname)`. -/
inductive DnsOutcome where
  | resolved
  | errCode (code : String)
deriving DecidableEq

/-- Environment of one `fetchDigest` run: the resolver, the winner of the
Phase 1 `Promise.any` race (already-validated raw HTML and proxy name,
`none` when every attempt rejected), the optional ZenRows key and the
ZenRows transport outcome (body before validation). -/
structure ScrapeEnv where
  dns : String → DnsOutcome
  race : Option (String × String)
  zenKey : Option String
  zenFetch : Except String String

/-- The Phase 0 throw message. -/
def fastFailMsg (code : String) : String :=
  "FastFail: Domain completely unreachable (" ++ code ++ ")"

/-- Phases 1–2 of `fetchDigest`: the race, then the ZenRows premium
fallback (validated), then the aggregate failure.  The `Bool` of the
result records that network fetch attempts were made. -/
def fetchDigestTier12 (env : ScrapeEnv) (start_url : String) :
    Except String (String × String) × Bool :=
  match env.race with
  | some (raw, pname) => (.ok (processHtmlToDigest raw start_url pname, pname), true)
  | none =>
    match env.zenKey with
    | some _ =>
      match env.zenFetch with
      | .ok raw =>
        match validateHtml raw start_url with
        | none =>
          (.ok (processHtmlToDigest raw start_url "ZenRows (Premium)", "ZenRows (Premium)"), true)
        | some _ => (.error ("Bulletproof scraping failed for " ++ start_url), true)
      | .error _ => (.error ("Bulletproof scraping failed for " ++ start_url), true)
    | none => (.error ("Bulletproof scraping failed for " ++ start_url), true)

/-- `fetchDigest` from `scraperService.ts` (lines 69–182): normalize the
URL; Phase 0 resolves the hostname and throws the FastFail error — before
any fetch — exactly on `ENOTFOUND`/`ENODATA`; every other resolver error
(and a throwing `new URL`, whose error has no matching `code`) falls
through to the Phase 1 race.  The `Bool` records whether any network
fetch attempt was made. -/
def fetchDigest (env : ScrapeEnv) (urlOrDomain : String) :
    Except String (String × String) × Bool :=
  let start_url := normalizeUrl urlOrDomain
  if start_url = "" then (.error "Invalid URL or domain", false)
  else
    match urlHostname start_url with
    | some h =>
      match env.dns h with
      | .errCode c =>
        if c = "ENOTFOUND" ∨ c = "ENODATA" then (.error (fastFailMsg c), false)
        else fetchDigestTier12 env start_url
      | .resolved => fetchDigestTier12 env start_url
    | none => fetchDigestTier12 env start_url

/- ## jobProcessor.ts : the per-item pipeline (lines 170–236, 298–352) -/

/-- A `contacts` row as joined into the claimed chunk. -/
structure ContactRow where
  id : Nat
  contact_id : String
  email : Option String
  company_website : Option String
  lead_list_name : Option String
deriving DecidableEq

/-- A claimed `job_items` row (`select('*, contacts(*)')`). -/
structure JobItemRow where
  id : Nat
  job_id : Nat
  attempt_count : Nat
  company_website : Option String
  contacts : ContactRow
deriving DecidableEq

/-- JS truthiness of an optional string (missing/null and `""` falsy). -/
def truthy : Option String → Bool
  | none => false
  | some s => s ≠ ""

/-- `email.split('@')[1]`. -/
def emailDomain (email : String) : Option String :=
  ((jsSplitChar '@' email.data).get? 1).map String.mk

/-- `jobItem.company_website || (contact.email ? contact.email.split('@')[1] : null)`
(a `some ""` result is falsy downstream, like `""`/`undefined` in JS). -/
def itemDomain (item : JobItemRow) : Option String :=
  if truthy item.company_website then item.company_website
  else
    match item.contacts.email with
    | some e => if e ≠ "" then emailDomain e else none
    | none => none

/-- The `domainCache` entry fields `createResult` reads from a cached
classification (an Enrichment row or a prior AI output). -/
structure ClassData where
  classification : String
  confidence : ℤ
deriving DecidableEq

/-- The fields written into a `job_items` upsert.  `none` = the JS object
literal omits the field (column untouched); `some none` = explicit
`null`; `some (some v)` = value.  Timestamps are epoch milliseconds. -/
structure JobItemUpdate where
  id : Nat
  status : JStatus
  attempt_count : Option Nat
  next_retry_at : Option Nat
  error_message : Option (Option String)
  finished_at : Option (Option Nat)
  locked_at : Option (Option Nat)
deriving DecidableEq

/-- An `enrichments` upsert payload. -/
structure EnrichmentUpsert where
  contact_id : String
  status : JStatus
  confidence : ℤ
  reasoning : String
  classification : String
  page_html : Option String
  cost : ℚ
  processed_at : Nat
deriving DecidableEq

/-- A `contacts` upsert payload. -/
structure ContactUpdate where
  id : Nat
  email : Option String
  industry : String
  lead_list_name : Option String
deriving DecidableEq

/-- The per-item outcome record built by `createResult`/`createRetry`. -/
structure ItemOutcome where
  jobId : Nat
  newStatus : JStatus
  jobItemUpdate : JobItemUpdate
  enrichmentUpdate : Option EnrichmentUpsert
  contactUpdate : Option ContactUpdate
deriving DecidableEq

/-- JS `v || dflt` on an optional integer (0 falsy). -/
def jsOrInt (v : Option ℤ) (dflt : ℤ) : ℤ :=
  match v with
  | some n => if n = 0 then dflt else n
  | none => dflt

/-- `JobProcessor.createResult` (lines 298–331); `now` models the
`new Date()` timestamps. -/
def createResult (now : Nat) (jobItem : JobItemRow) (isSuccess : Bool) (status : JStatus)
    (errorOrReasoning : String) (classificationData : Option ClassData)
    (digest : Option String) (cost : ℚ) : ItemOutcome :=
  { jobId := jobItem.job_id
    newStatus := status
    jobItemUpdate := {
      id := jobItem.id
      status := status
      attempt_count := none
      next_retry_at := none
      error_message := some (if isSuccess then none else some errorOrReasoning)
      finished_at := some (some now)
      locked_at := none }
    enrichmentUpdate := some {
      contact_id := jobItem.contacts.contact_id
      status := status
      confidence := jsOrInt (classificationData.map ClassData.confidence) 1
      reasoning := errorOrReasoning
      classification := jsOrStr (classificationData.map ClassData.classification)
        (if isSuccess then "Unknown" else "Scrape Error")
      page_html := digest
      cost := cost
      processed_at := now }
    contactUpdate := some {
      id := jobItem.contacts.id
      email := jobItem.contacts.email
      industry := jsOrStr (classificationData.map ClassData.classification)
        (if isSuccess then "Unknown" else "Scrape Error")
      lead_list_name := jobItem.contacts.lead_list_name } }

/-- `JobProcessor.createRetry` (lines 333–352): exponential backoff
`2^attempt_count * 2000` ms, attempt_count incremented, lock and
finished_at cleared, no Enrichment/Contact write. -/
def createRetry (now : Nat) (jobItem : JobItemRow) (errorMsg : String) : ItemOutcome :=
  { jobId := jobItem.job_id
    newStatus := .retrying
    jobItemUpdate := {
      id := jobItem.id
      status := .retrying
      attempt_count := some (jobItem.attempt_count + 1)
      next_retry_at := some (now + 2 ^ jobItem.attempt_count * 2000)
      error_message := some (some errorMsg)
      finished_at := some none
      locked_at := some none }
    enrichmentUpdate := none
    contactUpdate := none }

/-- Environment of one item's run inside `processNextChunk`: the two
chunk-local caches, the `fetchDigest` outcome for the item's domain, the
`enrichSingle` outcome (`.error` = a thrown exception), and the clock. -/
structure ItemCtx where
  domainCache : String → Option ClassData
  digestCache : String → Option String
  scrape : Except String (String × String)
  ai : Except String EnrichResult
  now : Nat

/-- Step C of the pipeline (lines 212–236): classify the digest; success
also populates the chunk cache (a chunk-level mutation outside this
per-item record). -/
def aiPhase (maxRetries : Nat) (ctx : ItemCtx) (jobItem : JobItemRow) (digest : String) :
    ItemOutcome :=
  match ctx.ai with
  | .ok aiOutput =>
    if aiOutput.status = JStatus.completed ∧ aiOutput.classification ≠ "ERROR" then
      createResult ctx.now jobItem true .completed aiOutput.reasoning
        (some ⟨aiOutput.classification, aiOutput.confidence⟩) (some digest) aiOutput.cost
    else if jobItem.attempt_count < maxRetries then
      createRetry ctx.now jobItem ("AI error: " ++ aiOutput.reasoning)
    else
      createResult ctx.now jobItem false .failed ("AI terminal error: " ++ aiOutput.reasoning)
        none none 0
  | .error msg =>
    if jobItem.attempt_count < maxRetries then
      createRetry ctx.now jobItem ("AI exception: " ++ msg)
    else
      createResult ctx.now jobItem false .failed ("AI terminal exception: " ++ msg) none none 0

/-- `let digest = digestCache[domain]; if (!digest) …`: the cached digest
when the cache holds a truthy value. -/
def cachedDigest (ctx : ItemCtx) (domain : String) : Option String :=
  if truthy (ctx.digestCache domain) then ctx.digestCache domain else none

/-- One claimed item's processing (lines 170–236): derive the domain (or
fail), serve from the Domain Cache, else digest from the Digest Cache or
a live scrape (retry/fail on scrape errors, `FastFail` terminal), then
classify. -/
def processItem (maxRetries : Nat) (ctx : ItemCtx) (jobItem : JobItemRow) : ItemOutcome :=
  match itemDomain jobItem with
  | none =>
    createResult ctx.now jobItem false .failed "No domain or email to extract domain from."
      none none 0
  | some domain =>
    if domain = "" then
      createResult ctx.now jobItem false .failed "No domain or email to extract domain from."
        none none 0
    else
      match ctx.domainCache domain with
      | some cached =>
        createResult ctx.now jobItem true .completed "⚡ Reused high-confidence classification"
          (some cached) none 0
      | none =>
        match cachedDigest ctx domain with
        | some digest => aiPhase maxRetries ctx jobItem digest
        | none =>
          match ctx.scrape with
          | .ok (digest, _) => aiPhase maxRetries ctx jobItem digest
          | .error e =>
            if !(occursStr "FastFail" e) && jobItem.attempt_count < maxRetries then
              createRetry ctx.now jobItem ("Scraper error: " ++ e)
            else
              createResult ctx.now jobItem false .failed ("Scrape terminal error: " ++ e)
                none none 0

/- ## Helper lemmas for the processor claims -/

theorem isPrefixOfAppend (l : List Char) :
    ∀ s t, l.isPrefixOf s = true → l.isPrefixOf (s ++ t) = true := by
  induction l with
  | nil => intro s t _; simp [List.isPrefixOf]
  | cons a as ih =>
    intro s t h
    cases s with
    | nil => simp [List.isPrefixOf] at h
    | cons b bs =>
      simp only [List.cons_append, List.isPrefixOf, Bool.and_eq_true, beq_iff_eq] at h ⊢
      exact ⟨h.1, ih bs t h.2⟩

theorem occursBNil : ∀ h : List Char, occursB [] h = true := by
  intro h
  cases h <;> simp [occursB, List.isPrefixOf]

theorem occursBAppendLeft (n : List Char) :
    ∀ h1 h2, occursB n h1 = true → occursB n (h1 ++ h2) = true := by
  intro h1
  induction h1 with
  | nil =>
    intro h2 h
    simp only [occursB, List.isEmpty_iff] at h
    subst h
    simpa using occursBNil h2
  | cons c t ih =>
    intro h2 h
    simp only [occursB, Bool.or_eq_true] at h
    simp only [List.cons_append, occursB, Bool.or_eq_true]
    rcases h with h | h
    · exact Or.inl (isPrefixOfAppend _ _ _ h)
    · exact Or.inr (ih h2 h)

/-- The FastFail throw message always contains the `FastFail` marker the
processor tests for. -/
theorem occursStrFastFail (c : String) : occursStr "FastFail" (fastFailMsg c) = true := by
  unfold occursStr fastFailMsg
  rw [String.data_append, String.data_append]
  apply occursBAppendLeft
  apply occursBAppendLeft
  decide

theorem jsSplitCharNoSep (sep : Char) : ∀ cs, sep ∉ cs → jsSplitChar sep cs = [cs] := by
  intro cs
  induction cs with
  | nil => intro _; rfl
  | cons c t ih =>
    intro h
    have hc : ¬(c = sep) := fun hc => h (by simp [hc])
    have ht : sep ∉ t := fun hm => h (List.mem_cons_of_mem _ hm)
    simp [jsSplitChar, hc, ih ht]

theorem jsSplitCharAppend (sep : Char) :
    ∀ l r, sep ∉ l → jsSplitChar sep (l ++ sep :: r) = l :: jsSplitChar sep r := by
  intro l
  induction l with
  | nil => intro r _; simp [jsSplitChar]
  | cons c t ih =>
    intro r hl
    have hc : ¬(c = sep) := fun hc => hl (by simp [hc])
    have ht : sep ∉ t := fun hm => hl (List.mem_cons_of_mem _ hm)
    simp only [List.cons_append, jsSplitChar, if_neg hc]
    rw [List.append_eq, ih r ht]

theorem emailDomainSplit (l r : List Char) (hl : '@' ∉ l) (hr : '@' ∉ r) :
    emailDomain (String.mk (l ++ '@' :: r)) = some (String.mk r) := by
  unfold emailDomain
  show ((jsSplitChar '@' (l ++ '@' :: r)).get? 1).map String.mk = _
  rw [jsSplitCharAppend _ _ _ hl, jsSplitCharNoSep _ _ hr]
  rfl

/-- Phases 1–2 always perform network fetch attempts. -/
theorem fetchDigestTier12Attempts (env : ScrapeEnv) (s : String) :
    (fetchDigestTier12 env s).2 = true := by
  unfold fetchDigestTier12
  rcases env.race with _ | ⟨raw, pname⟩
  · rcases env.zenKey with _ | k
    · rfl
    · rcases env.zenFetch with m | raw
      · rfl
      · rcases hv : validateHtml raw s with _ | e <;> simp [hv]
  · rfl

/-- `truthy` cache values seen through `cachedDigest`. -/
theorem cachedDigestOfFalsy (ctx : ItemCtx) (domain : String)
    (h : truthy (ctx.digestCache domain) = false) : cachedDigest ctx domain = none := by
  simp [cachedDigest, h]

theorem cachedDigestOfTruthy (ctx : ItemCtx) (domain : String)
    (h : truthy (ctx.digestCache domain) = true) :
    ∃ d, cachedDigest ctx domain = some d := by
  rcases hv : ctx.digestCache domain with _ | d
  · rw [hv] at h
    simp [truthy] at h
  · refine ⟨d, ?_⟩
    simp only [cachedDigest, h, if_true]
    exact hv

/-- C1: a claimed item failing with a retryable (non-FastFail) error —
a scrape error without the FastFail marker, a failed classifier result,
or a classifier exception — is retried while `attempt_count < MAX_RETRIES`
with status `retrying`, `attempt_count` incremented by exactly 1,
`next_retry_at = now + 2000·2^attempt_count`, `locked_at` cleared, the
error recorded, and no Enrichment or Contact write; once `attempt_count`
has reached `MAX_RETRIES` the outcome is `failed` with the last error
recorded, never `retrying`. -/
theorem claimC1_retry_policy (maxRetries : Nat) (ctx : ItemCtx) (item : JobItemRow)
    (domain retryMsg termMsg : String)
    (hd : itemDomain item = some domain) (hne : domain ≠ "")
    (hcache : ctx.domainCache domain = none)
    (hfail :
      (truthy (ctx.digestCache domain) = false ∧
        ∃ e, ctx.scrape = .error e ∧ occursStr "FastFail" e = false ∧
          retryMsg = "Scraper error: " ++ e ∧ termMsg = "Scrape terminal error: " ++ e) ∨
      ((truthy (ctx.digestCache domain) = true ∨ ∃ d p, ctx.scrape = .ok (d, p)) ∧
        ((∃ out, ctx.ai = .ok out ∧
            ¬(out.status = JStatus.completed ∧ out.classification ≠ "ERROR") ∧
            retryMsg = "AI error: " ++ out.reasoning ∧
            termMsg = "AI terminal error: " ++ out.reasoning) ∨
         (∃ m, ctx.ai = .error m ∧
            retryMsg = "AI exception: " ++ m ∧ termMsg = "AI terminal exception: " ++ m)))) :
    (item.attempt_count < maxRetries →
      processItem maxRetries ctx item = createRetry ctx.now item retryMsg ∧
      (processItem maxRetries ctx item).newStatus = JStatus.retrying ∧
      (processItem maxRetries ctx item).jobItemUpdate.attempt_count =
        some (item.attempt_count + 1) ∧
      (processItem maxRetries ctx item).jobItemUpdate.next_retry_at =
        some (ctx.now + 2 ^ item.attempt_count * 2000) ∧
      (processItem maxRetries ctx item).jobItemUpdate.locked_at = some none ∧
      (processItem maxRetries ctx item).jobItemUpdate.error_message = some (some retryMsg) ∧
      (processItem maxRetries ctx item).enrichmentUpdate = none ∧
      (processItem maxRetries ctx item).contactUpdate = none) ∧
    (maxRetries ≤ item.attempt_count →
      (processItem maxRetries ctx item).newStatus = JStatus.failed ∧
      (processItem maxRetries ctx item).jobItemUpdate.status = JStatus.failed ∧
      (processItem maxRetries ctx item).jobItemUpdate.error_message = some (some termMsg) ∧
      (processItem maxRetries ctx item).newStatus ≠ JStatus.retrying) := by
  have haiPhase : ∀ digest,
      ((∃ out, ctx.ai = .ok out ∧
          ¬(out.status = JStatus.completed ∧ out.classification ≠ "ERROR") ∧
          retryMsg = "AI error: " ++ out.reasoning ∧
          termMsg = "AI terminal error: " ++ out.reasoning) ∨
       (∃ m, ctx.ai = .error m ∧
          retryMsg = "AI exception: " ++ m ∧ termMsg = "AI terminal exception: " ++ m)) →
      (item.attempt_count < maxRetries →
        aiPhase maxRetries ctx item digest = createRetry ctx.now item retryMsg) ∧
      (maxRetries ≤ item.attempt_count →
        aiPhase maxRetries ctx item digest =
          createResult ctx.now item false .failed termMsg none none 0) := by
    intro digest hai
    unfold aiPhase
    rcases hai with ⟨out, haiok, hnc, hrm, htm⟩ | ⟨m, haierr, hrm, htm⟩
    · rw [haiok]
      dsimp only
      rw [if_neg hnc]
      constructor
      · intro hlt
        rw [if_pos hlt, hrm]
      · intro hge
        rw [if_neg (by omega), htm]
    · rw [haierr]
      dsimp only
      constructor
      · intro hlt
        rw [if_pos hlt, hrm]
      · intro hge
        rw [if_neg (by omega), htm]
  have hmain :
      (item.attempt_count < maxRetries →
        processItem maxRetries ctx item = createRetry ctx.now item retryMsg) ∧
      (maxRetries ≤ item.attempt_count →
        processItem maxRetries ctx item =
          createResult ctx.now item false .failed termMsg none none 0) := by
    unfold processItem
    rw [hd]
    dsimp only
    rw [if_neg hne, hcache]
    dsimp only
    rcases hfail with ⟨hdig, e, hscrape, hff, hrm, htm⟩ | ⟨hsrc, hai⟩
    · rw [cachedDigestOfFalsy ctx domain hdig]
      dsimp only
      rw [hscrape]
      dsimp only
      constructor
      · intro hlt
        rw [if_pos (by simp [hff, hlt]), hrm]
      · intro hge
        rw [if_neg (by simp [hff]; omega), htm]
    · rcases htr : truthy (ctx.digestCache domain) with _ | _
      · rcases hsrc with htr2 | ⟨d0, p0, hok⟩
        · rw [htr] at htr2
          exact absurd htr2 (by simp)
        · rw [cachedDigestOfFalsy ctx domain htr]
          dsimp only
          rw [hok]
          exact haiPhase d0 hai
      · obtain ⟨d, hd2⟩ := cachedDigestOfTruthy ctx domain htr
        rw [hd2]
        exact haiPhase d hai
  constructor
  · intro hlt
    have he := hmain.1 hlt
    exact ⟨he, by rw [he]; rfl, by rw [he]; rfl, by rw [he]; rfl, by rw [he]; rfl,
      by rw [he]; rfl, by rw [he]; rfl, by rw [he]; rfl⟩
  · intro hge
    have he := hmain.2 hge
    refine ⟨by rw [he]; rfl, by rw [he]; rfl, by rw [he]; rfl, ?_⟩
    rw [he]
    simp [createResult]

/-- Environment for the C1 witness: empty caches, a timed-out scrape. -/
def c1ctx : ItemCtx :=
  { domainCache := fun _ => none
    digestCache := fun _ => none
    scrape := .error "socket timeout"
    ai := .error "unused"
    now := 5000 }

/-- Item for the C1 witness: first attempt. -/
def c1item : JobItemRow :=
  { id := 7
    job_id := 3
    attempt_count := 0
    company_website := some "acme.test"
    contacts := { id := 11, contact_id := "c-11", email := some "jo@acme.test",
                  company_website := some "acme.test", lead_list_name := none } }

/-- Witness for C1: the first retry carries attempt_count 1 and
`next_retry_at = now + 2000`. -/
theorem claimC1_retry_policy_witness :
    processItem 3 c1ctx c1item = createRetry 5000 c1item "Scraper error: socket timeout" ∧
    (processItem 3 c1ctx c1item).jobItemUpdate.attempt_count = some 1 ∧
    (processItem 3 c1ctx c1item).jobItemUpdate.next_retry_at = some 7000 := by
  have h := claimC1_retry_policy 3 c1ctx c1item "acme.test"
    "Scraper error: socket timeout" "Scrape terminal error: socket timeout"
    (by decide) (by decide) rfl
    (Or.inl ⟨rfl, "socket timeout", rfl, by decide, rfl, rfl⟩)
  have h1 := h.1 (by decide)
  exact ⟨h1.1, h1.2.2.1, h1.2.2.2.1⟩

/-- C4: an item whose domain is in the chunk's Domain Cache resolves to
`completed` with cost 0 and the cached classification reused, and the
outcome does not depend on the Content Fetcher or Classifier outcomes. -/
theorem claimC4_domain_cache_hit (maxRetries : Nat) (ctx : ItemCtx) (item : JobItemRow)
    (domain : String) (cached : ClassData)
    (hd : itemDomain item = some domain) (hne : domain ≠ "")
    (hcache : ctx.domainCache domain = some cached) (hcls : cached.classification ≠ "") :
    processItem maxRetries ctx item =
      createResult ctx.now item true .completed "⚡ Reused high-confidence classification"
        (some cached) none 0 ∧
    (processItem maxRetries ctx item).newStatus = JStatus.completed ∧
    (∃ enr, (processItem maxRetries ctx item).enrichmentUpdate = some enr ∧
      enr.cost = 0 ∧ enr.classification = cached.classification ∧
      enr.status = JStatus.completed) ∧
    (∀ scrape' ai', processItem maxRetries { ctx with scrape := scrape', ai := ai' } item =
      processItem maxRetries ctx item) := by
  have he : processItem maxRetries ctx item =
      createResult ctx.now item true .completed "⚡ Reused high-confidence classification"
        (some cached) none 0 := by
    unfold processItem
    rw [hd]
    dsimp only
    rw [if_neg hne, hcache]
  refine ⟨he, by rw [he]; rfl, ?_, ?_⟩
  · rw [he]
    refine ⟨_, rfl, rfl, ?_, rfl⟩
    simp [createResult, jsOrStr, hcls]
  · intro scrape' ai'
    have he2 : processItem maxRetries { ctx with scrape := scrape', ai := ai' } item =
        createResult ctx.now item true .completed "⚡ Reused high-confidence classification"
          (some cached) none 0 := by
      unfold processItem
      rw [hd]
      dsimp only
      rw [if_neg hne, hcache]
    rw [he, he2]

/-- Environment for the C4 witness. -/
def c4ctx : ItemCtx :=
  { domainCache := fun d => if d = "bar.test" then some ⟨"Legal Services", 9⟩ else none
    digestCache := fun _ => none
    scrape := .error "should not be consulted"
    ai := .error "should not be consulted"
    now := 42 }

/-- Item for the C4 witness: a contact at the cached domain. -/
def c4item : JobItemRow :=
  { id := 1
    job_id := 2
    attempt_count := 0
    company_website := some "bar.test"
    contacts := { id := 5, contact_id := "c-5", email := some "kim@bar.test",
                  company_website := some "bar.test", lead_list_name := some "L1" } }

/-- Witness for C4: the cache-hit scenario at "bar.test". -/
theorem claimC4_domain_cache_hit_witness :
    (processItem 3 c4ctx c4item).newStatus = JStatus.completed ∧
    (∃ enr, (processItem 3 c4ctx c4item).enrichmentUpdate = some enr ∧
      enr.cost = 0 ∧ enr.classification = "Legal Services" ∧
      enr.status = JStatus.completed) := by
  have h := claimC4_domain_cache_hit 3 c4ctx c4item "bar.test" ⟨"Legal Services", 9⟩
    (by decide) (by decide) (by decide) (by decide)
  exact ⟨h.2.1, h.2.2.1⟩

/-- C10: with a falsy `company_website` on the claimed row (equal to the
contact's), the fetch domain is the part of the contact's email after
the `@`; with neither website nor email the item fails immediately with
the fixed error message, no retry fields, and no dependence on the
fetcher or classifier. -/
theorem claimC10_email_domain (maxRetries : Nat) (ctx : ItemCtx) (item : JobItemRow)
    (hlink : item.company_website = item.contacts.company_website) :
    (∀ l r : List Char, truthy item.contacts.company_website = false →
      item.contacts.email = some (String.mk (l ++ '@' :: r)) → '@' ∉ l → '@' ∉ r →
      itemDomain item = some (String.mk r)) ∧
    (truthy item.contacts.company_website = false →
      truthy item.contacts.email = false →
      processItem maxRetries ctx item =
        createResult ctx.now item false .failed "No domain or email to extract domain from."
          none none 0 ∧
      (processItem maxRetries ctx item).newStatus = JStatus.failed ∧
      (processItem maxRetries ctx item).jobItemUpdate.error_message =
        some (some "No domain or email to extract domain from.") ∧
      (processItem maxRetries ctx item).jobItemUpdate.attempt_count = none ∧
      (∀ scrape' ai', processItem maxRetries { ctx with scrape := scrape', ai := ai' } item =
        processItem maxRetries ctx item)) := by
  constructor
  · intro l r hweb hemail hl hr
    have hne : String.mk (l ++ '@' :: r) ≠ "" := by
      intro hcon
      have := congrArg String.data hcon
      simp at this
    unfold itemDomain
    rw [hlink]
    simp only [hweb, Bool.false_eq_true, if_false, hemail]
    rw [if_pos hne]
    exact emailDomainSplit l r hl hr
  · intro hweb hemail
    have hdom : itemDomain item = none := by
      unfold itemDomain
      rw [hlink]
      simp only [hweb, Bool.false_eq_true, if_false]
      rcases he : item.contacts.email with _ | e
      · simp [he]
      · rw [he] at hemail
        simp only [truthy, ne_eq, decide_not] at hemail
        have he0 : e = "" := by
          by_contra hc
          simp [hc] at hemail
        simp [he, he0]
    have he : processItem maxRetries ctx item =
        createResult ctx.now item false .failed "No domain or email to extract domain from."
          none none 0 := by
      unfold processItem
      rw [hdom]
    refine ⟨he, by rw [he]; rfl, by rw [he]; rfl, by rw [he]; rfl, ?_⟩
    intro scrape' ai'
    have he2 : processItem maxRetries { ctx with scrape := scrape', ai := ai' } item =
        createResult ctx.now item false .failed "No domain or email to extract domain from."
          none none 0 := by
      unfold processItem
      rw [hdom]
    rw [he, he2]

/-- Environment for the C10 witness. -/
def c10ctx : ItemCtx :=
  { domainCache := fun _ => none
    digestCache := fun _ => none
    scrape := .error "unused"
    ai := .error "unused"
    now := 7 }

/-- Item for the C10 witness: no website, no email. -/
def c10item : JobItemRow :=
  { id := 9
    job_id := 4
    attempt_count := 0
    company_website := none
    contacts := { id := 13, contact_id := "c-13", email := none,
                  company_website := none, lead_list_name := none } }

/-- Witness for C10: the email-derived domain on a concrete email, and
the immediate failure with neither source. -/
theorem claimC10_email_domain_witness :
    itemDomain { c10item with
      contacts := { c10item.contacts with email := some "ana@foo.test" } } = some "foo.test" ∧
    (processItem 3 c10ctx c10item).newStatus = JStatus.failed ∧
    (processItem 3 c10ctx c10item).jobItemUpdate.error_message =
      some (some "No domain or email to extract domain from.") := by
  constructor
  · have h := (claimC10_email_domain 3 c10ctx
      { c10item with contacts := { c10item.contacts with email := some "ana@foo.test" } } rfl).1
      ('a' :: 'n' :: 'a' :: []) ('f' :: 'o' :: 'o' :: '.' :: 't' :: 'e' :: 's' :: 't' :: [])
      (by decide) (by decide) (by decide) (by decide)
    exact h
  · have h := (claimC10_email_domain 3 c10ctx c10item rfl).2 (by decide) (by decide)
    exact ⟨h.2.1, h.2.2.1⟩

/-- C3: `fetchDigest` throws the FastFail error with no network fetch
attempt exactly when DNS resolution of the hostname fails with
`ENOTFOUND`/`ENODATA`; every other resolver error falls through to the
Tier 1 race; and a job item whose scrape threw the FastFail error goes
straight to `failed` on its first attempt with `attempt_count` untouched
(the update omits the column). -/
theorem claimC3_dns_fastfail :
    (∀ (env : ScrapeEnv) (u : String), normalizeUrl u ≠ "" →
      ∀ h c, urlHostname (normalizeUrl u) = some h → env.dns h = .errCode c →
        (c = "ENOTFOUND" ∨ c = "ENODATA") →
        fetchDigest env u = (.error (fastFailMsg c), false)) ∧
    (∀ (env : ScrapeEnv) (u : String), normalizeUrl u ≠ "" →
      (fetchDigest env u).2 = false →
      ∃ h c, urlHostname (normalizeUrl u) = some h ∧ env.dns h = .errCode c ∧
        (c = "ENOTFOUND" ∨ c = "ENODATA")) ∧
    (∀ (env : ScrapeEnv) (u h c : String), normalizeUrl u ≠ "" →
      urlHostname (normalizeUrl u) = some h → env.dns h = .errCode c →
      c ≠ "ENOTFOUND" → c ≠ "ENODATA" → (fetchDigest env u).2 = true) ∧
    (∀ (maxRetries : Nat) (ctx : ItemCtx) (item : JobItemRow) (domain c : String),
      itemDomain item = some domain → domain ≠ "" →
      ctx.domainCache domain = none → truthy (ctx.digestCache domain) = false →
      ctx.scrape = .error (fastFailMsg c) →
      item.attempt_count = 0 →
      (processItem maxRetries ctx item).newStatus = JStatus.failed ∧
      (processItem maxRetries ctx item).jobItemUpdate.status = JStatus.failed ∧
      (processItem maxRetries ctx item).jobItemUpdate.attempt_count = none ∧
      (processItem maxRetries ctx item).jobItemUpdate.error_message =
        some (some ("Scrape terminal error: " ++ fastFailMsg c))) := by
  refine ⟨?_, ?_, ?_, ?_⟩
  · intro env u hnu h c hh hdns hcc
    unfold fetchDigest
    rw [if_neg hnu, hh]
    dsimp only
    rw [hdns]
    dsimp only
    rcases hcc with hcc | hcc <;>
      · subst hcc
        rw [if_pos (by decide)]
  · intro env u hnu h2
    unfold fetchDigest at h2
    rw [if_neg hnu] at h2
    rcases hh : urlHostname (normalizeUrl u) with _ | h
    · simp [hh, fetchDigestTier12Attempts] at h2
    · rcases hd : env.dns h with _ | c
      · simp [hh, hd, fetchDigestTier12Attempts] at h2
      · by_cases hcc : c = "ENOTFOUND" ∨ c = "ENODATA"
        · exact ⟨h, c, rfl, hd, hcc⟩
        · simp [hh, hd, hcc, fetchDigestTier12Attempts] at h2
  · intro env u h c hnu hh hdns hc1 hc2
    unfold fetchDigest
    rw [if_neg hnu, hh]
    dsimp only
    rw [hdns]
    dsimp only
    rw [if_neg (by simp [hc1, hc2])]
    exact fetchDigestTier12Attempts env (normalizeUrl u)
  · intro maxRetries ctx item domain c hd hne hcache hdig hscrape _
    have he : processItem maxRetries ctx item =
        createResult ctx.now item false .failed
          ("Scrape terminal error: " ++ fastFailMsg c) none none 0 := by
      unfold processItem
      rw [hd]
      dsimp only
      rw [if_neg hne, hcache]
      dsimp only
      rw [cachedDigestOfFalsy ctx domain hdig]
      dsimp only
      rw [hscrape]
      dsimp only
      rw [if_neg (by simp [occursStrFastFail])]
    exact ⟨by rw [he]; rfl, by rw [he]; rfl, by rw [he]; rfl, by rw [he]; rfl⟩

/-- Environment for the C3 witness: every hostname is NXDOMAIN. -/
def c3env : ScrapeEnv :=
  { dns := fun _ => .errCode "ENOTFOUND"
    race := none
    zenKey := none
    zenFetch := .error "unused" }

/-- Context for the C3 witness: the scrape threw the FastFail error. -/
def c3ctx : ItemCtx :=
  { domainCache := fun _ => none
    digestCache := fun _ => none
    scrape := .error (fastFailMsg "ENOTFOUND")
    ai := .error "unused"
    now := 99 }

/-- Item for the C3 witness: first attempt at "doesnotexist.invalid". -/
def c3item : JobItemRow :=
  { id := 21
    job_id := 6
    attempt_count := 0
    company_website := some "doesnotexist.invalid"
    contacts := { id := 31, contact_id := "c-31", email := none,
                  company_website := some "doesnotexist.invalid", lead_list_name := none } }

/-- Witness for C3: the "doesnotexist.invalid" scenario. -/
theorem claimC3_dns_fastfail_witness :
    fetchDigest c3env "doesnotexist.invalid" =
      (Except.error (fastFailMsg "ENOTFOUND"), false) ∧
    (processItem 3 c3ctx c3item).newStatus = JStatus.failed ∧
    (processItem 3 c3ctx c3item).jobItemUpdate.attempt_count = none := by
  constructor
  · exact claimC3_dns_fastfail.1 c3env "doesnotexist.invalid" (by decide)
      "doesnotexist.invalid" "ENOTFOUND" (by decide) rfl (Or.inl rfl)
  · have h := claimC3_dns_fastfail.2.2.2 3 c3ctx c3item "doesnotexist.invalid" "ENOTFOUND"
      (by decide) (by decide) rfl rfl rfl rfl
    exact ⟨h.1, h.2.2.1⟩

/- ## C7/C8 : digest pipeline structure -/

theorem collectTextsLen : ∀ (caps : List (List Char)) (n : Nat), (collectTexts n caps).length ≤ n := by
  intro caps
  induction caps with
  | nil => intro n; cases n <;> simp [collectTexts]
  | cons cap rest ih =>
    intro n
    cases n with
    | zero => simp [collectTexts]
    | succ m =>
      simp only [collectTexts]
      split
      · exact ih (m + 1)
      · simp only [List.length_cons]
        have := ih m
        omega

theorem extractManyLen (html tag : List Char) (limit : Nat) :
    (extractMany html tag limit).length ≤ limit :=
  collectTextsLen (extractManyAux tag html) limit

theorem getVisibleTextLen (html : List Char) (maxChars : Nat) :
    (getVisibleText html maxChars).length ≤ maxChars := by
  unfold getVisibleText
  exact List.length_take_le _ _

/-- C7: digest construction strips CSS/JS first, caps the stripped text
to `MAX_HTML_BYTES` second, and only then extracts the title, the meta
description, at most 4 H1s, at most 8 H2s and a visible-text prefix of
at most `VISIBLE_TEXT_CHARS` characters, assembled into the fixed-format
block. -/
theorem claimC7_digest_order (raw_html start_url proxyName : String) :
    processHtmlToDigest raw_html start_url proxyName =
      String.intercalate "\n"
        (digestParts start_url proxyName
          (String.mk (extractOne ((stripCssJs raw_html).data.take MAX_HTML_BYTES) captureTitle))
          (String.mk (extractOne ((stripCssJs raw_html).data.take MAX_HTML_BYTES) captureMetaDesc))
          ((extractMany ((stripCssJs raw_html).data.take MAX_HTML_BYTES)
              ('h' :: '1' :: []) 4).map String.mk)
          ((extractMany ((stripCssJs raw_html).data.take MAX_HTML_BYTES)
              ('h' :: '2' :: []) 8).map String.mk)
          (String.mk (getVisibleText ((stripCssJs raw_html).data.take MAX_HTML_BYTES)
              VISIBLE_TEXT_CHARS))) ∧
    ((stripCssJs raw_html).data.take MAX_HTML_BYTES).length ≤ MAX_HTML_BYTES ∧
    (extractMany ((stripCssJs raw_html).data.take MAX_HTML_BYTES)
        ('h' :: '1' :: []) 4).length ≤ 4 ∧
    (extractMany ((stripCssJs raw_html).data.take MAX_HTML_BYTES)
        ('h' :: '2' :: []) 8).length ≤ 8 ∧
    (getVisibleText ((stripCssJs raw_html).data.take MAX_HTML_BYTES)
        VISIBLE_TEXT_CHARS).length ≤ VISIBLE_TEXT_CHARS :=
  ⟨rfl, List.length_take_le _ _, extractManyLen _ _ _, extractManyLen _ _ _,
    getVisibleTextLen _ _⟩

/-- A case-insensitive prefix match that runs out of `s` continues into
`r` with the rest of the pattern. -/
theorem ciStripCross : ∀ (s p r : List Char), (ciStrip p (s ++ r)).isSome = true →
    s.length < p.length → (ciStrip (p.drop s.length) r).isSome = true := by
  intro s
  induction s with
  | nil => intro p r h _; simpa using h
  | cons a s' ih =>
    intro p r h hl
    cases p with
    | nil => simp at hl
    | cons b p' =>
      simp only [List.cons_append, ciStrip] at h
      by_cases hc : charCI b a = true
      · rw [if_pos hc] at h
        simpa [List.drop] using ih p' r h (by simpa using hl)
      · rw [if_neg hc] at h
        simp at h

/-- A case-insensitive prefix match short enough to fit inside `s`
matches inside `s` alone. -/
theorem ciStripConfine : ∀ (p s r : List Char), (ciStrip p (s ++ r)).isSome = true →
    p.length ≤ s.length → (ciStrip p s).isSome = true := by
  intro p
  induction p with
  | nil => intro s r _ _; simp [ciStrip]
  | cons b p' ih =>
    intro s r h hl
    cases s with
    | nil => simp at hl
    | cons a s' =>
      simp only [List.cons_append, ciStrip] at h ⊢
      by_cases hc : charCI b a = true
      · rw [if_pos hc] at h ⊢
        exact ih s' r h (by simpa using hl)
      · rw [if_neg hc] at h
        simp at h

/-- The closing pattern of the `script` block regex. -/
def closePatScript : List Char := '<' :: '/' :: 's' :: 'c' :: 'r' :: 'i' :: 'p' :: 't' :: []

/-- When `B` contains no case-insensitive occurrence of `</script`, the
first `</script\s*>` in `B ++ "</script>"` is exactly the appended
closer, and nothing follows it. -/
theorem findCloseScriptAppend : ∀ B : List Char, ciOccursB closePatScript B = false →
    findCloseTag ('s' :: 'c' :: 'r' :: 'i' :: 'p' :: 't' :: []) (B ++ (closePatScript ++ ['>'])) =
      some [] := by
  intro B
  induction B with
  | nil => intro _; decide
  | cons b B' ih =>
    intro hB
    simp only [ciOccursB, Bool.or_eq_false_iff] at hB
    obtain ⟨h1, h2⟩ := hB
    have hnone : matchCloseTagCI ('s' :: 'c' :: 'r' :: 'i' :: 'p' :: 't' :: [])
        (b :: (B' ++ (closePatScript ++ ['>']))) = none := by
      have hview : matchCloseTagCI ('s' :: 'c' :: 'r' :: 'i' :: 'p' :: 't' :: [])
          (b :: (B' ++ (closePatScript ++ ['>']))) =
          match ciStrip closePatScript (b :: (B' ++ (closePatScript ++ ['>']))) with
          | none => none
          | some r => spacesThenGt r := rfl
      rw [hview]
      rcases hcs : ciStrip closePatScript (b :: (B' ++ (closePatScript ++ ['>']))) with _ | r
      · rfl
      · exfalso
        have hsome : (ciStrip closePatScript ((b :: B') ++ (closePatScript ++ ['>']))).isSome = true := by
          rw [List.cons_append, hcs]; rfl
        by_cases hlen : closePatScript.length ≤ (b :: B').length
        · have hin := ciStripConfine closePatScript (b :: B') _ hsome hlen
          rw [h1] at hin
          exact absurd hin (by simp)
        · have hlt : (b :: B').length < closePatScript.length := by omega
          have hcross := ciStripCross (b :: B') closePatScript _ hsome hlt
          have hfact : ∀ k, k < 8 → 0 < k →
              (ciStrip (closePatScript.drop k) (closePatScript ++ ['>'])).isSome = false := by
            decide
          have hk1 : 0 < (b :: B').length := by simp
          have hk2 : (b :: B').length < 8 := by
            have : closePatScript.length = 8 := by decide
            omega
          rw [hfact _ hk2 hk1] at hcross
          exact absurd hcross (by simp)
    have hstep : findCloseTag ('s' :: 'c' :: 'r' :: 'i' :: 'p' :: 't' :: [])
        ((b :: B') ++ (closePatScript ++ ['>'])) =
        match matchCloseTagCI ('s' :: 'c' :: 'r' :: 'i' :: 'p' :: 't' :: [])
            (b :: (B' ++ (closePatScript ++ ['>']))) with
        | some r => some r
        | none => findCloseTag ('s' :: 'c' :: 'r' :: 'i' :: 'p' :: 't' :: [])
            (B' ++ (closePatScript ++ ['>'])) := rfl
    rw [hstep, hnone]
    exact ih h2

unseal removeTagBlocks removeSelfClosingTags removeComments removeStylesheetLinks removeInlineStyles in
set_option maxRecDepth 16000 in
/-- C8 counterexample: `stripCssJs` is not idempotent.  Comment removal
runs after tag removal and splices with an empty replacement, so one
pass turns this input into `<script>alert(1)</script>`, which a second
pass removes. -/
theorem claimC8_counterexample :
    stripCssJs (stripCssJs "<scr<!-- -->ipt>alert(1)</script>") ≠
      stripCssJs "<scr<!-- -->ipt>alert(1)</script>" := by
  decide

unseal removeTagBlocks removeSelfClosingTags removeComments removeStylesheetLinks removeInlineStyles in
set_option maxRecDepth 16000 in
/-- C8 amended: the digest pipeline is deterministic (a pure function,
identical output on repeated runs), and a `<script>` element whose body
contains literal `<` characters (and no `</script` closer) is removed in
its entirety, never partially — but `stripCssJs` composed with itself
does not equal `stripCssJs` (see the counterexample). -/
theorem claimC8_amended :
    (∀ raw u p, processHtmlToDigest raw u p = processHtmlToDigest raw u p) ∧
    (∀ body : String, '<' ∈ body.data →
      ciOccursB closePatScript body.data = false →
      stripCssJs ("<script>" ++ body ++ "</script>") = " ") := by
  constructor
  · intro raw u p
    rfl
  · intro body _ hB
    have hdata : ("<script>" ++ body ++ "</script>").data =
        '<' :: 's' :: 'c' :: 'r' :: 'i' :: 'p' :: 't' :: '>' ::
          (body.data ++ (closePatScript ++ ['>'])) := by
      rw [String.data_append, String.data_append]
      rw [List.append_assoc]
      rfl
    have hne : ("<script>" ++ body ++ "</script>") ≠ "" := by
      intro h
      have h2 := congrArg String.data h
      rw [hdata] at h2
      simp at h2
    unfold stripCssJs
    rw [if_neg hne]
    dsimp only [tagsToRemove, List.foldl]
    rw [hdata]
    have hopen : matchOpenTagCI ('s' :: 'c' :: 'r' :: 'i' :: 'p' :: 't' :: [])
        ('<' :: 's' :: 'c' :: 'r' :: 'i' :: 'p' :: 't' :: '>' ::
          (body.data ++ (closePatScript ++ ['>']))) =
        some (body.data ++ (closePatScript ++ ['>'])) := rfl
    have hblock : removeTagBlocks ('s' :: 'c' :: 'r' :: 'i' :: 'p' :: 't' :: [])
        ('<' :: 's' :: 'c' :: 'r' :: 'i' :: 'p' :: 't' :: '>' ::
          (body.data ++ (closePatScript ++ ['>']))) = [' '] := by
      rw [removeTagBlocks.eq_def]
      dsimp only
      rw [hopen]
      dsimp only
      rw [findCloseScriptAppend body.data hB]
      dsimp only
      rw [removeTagBlocks.eq_def]
    rw [hblock]
    decide

unseal removeTagBlocks removeSelfClosingTags removeComments removeStylesheetLinks removeInlineStyles in
set_option maxRecDepth 16000 in
/-- Witness for C8's amended theorem: a script body with a literal `<`
is removed whole. -/
theorem claimC8_amended_witness :
    stripCssJs "<script>if (a<b) x = 1;</script>" = " " := by
  have h := claimC8_amended.2 "if (a<b) x = 1;" (by decide) (by decide)
  have heq : ("<script>" ++ "if (a<b) x = 1;" ++ "</script>" : String) =
      "<script>if (a<b) x = 1;</script>" := by decide
  rw [heq] at h
  exact h
